import Mathlib

/-!
Shallow embedding of the `btg_entity_exporter` Blender addon core:
the typed property store (`entity.py`), the reconciliation routines
(`utilities.py`), the selection/search engine (`panels.py`), the template
snapshot machinery (`entity.py`), and the import-JSON exporter
(`operators.py`).

Modelling conventions:
* Python floats are modelled as exact decimal literals `DecLit` (mantissa and
  number of fractional digits); their numeric value is the rational
  `m / 10 ^ f`.  All decisive numeric comparisons in the claims have margins
  many orders of magnitude wider than double rounding error, so the exact
  decimal model agrees with IEEE-754 evaluation on every input used here.
* Python dict semantics (insertion order, later assignment overwrites in
  place) are modelled on association lists by `dictInsert` / `dictOf`;
  the `|` dict-union operator by `pyDictUnion`.
* Exceptions (`KeyError`, `TypeError`, ...) are modelled with `Except String`;
  a Python function body that falls off its end returns the value `None`,
  modelled by the distinguished result `CmpRes.retNone` where it matters.
* Blender property-update callbacks fire on every Python assignment to the
  property, so assigning `object.class_name` immediately runs
  `reset_class_definition`; `setClassName` models the assignment together
  with its update callback.
-/

/-- Exact decimal literal `m / 10 ^ f`, the model of a Python float written
in plain decimal notation (`f` fractional digits). -/
structure DecLit where
  m : Int
  f : Nat
deriving DecidableEq

/-- Rational value of a decimal literal. -/
def DecLit.toRat (d : DecLit) : Rat := (d.m : Rat) / ((10 : Rat) ^ d.f)

/-- A Python value as stored in one of the `bpy.props` slots of
`EntityProperty` or appearing as a JSON template default: int, float,
string, bool, or a homogeneous numeric sequence (vector). -/
inductive PyVal where
  | pint (n : Int)
  | pfloat (d : DecLit)
  | pstr (s : String)
  | pbool (b : Bool)
  | pintarr (xs : List Int)
  | pfloatarr (ds : List DecLit)
deriving DecidableEq

/-- The `m_type` enum of `entity.EntityProperty`: which payload slot is
active (values `m_int`, `m_float`, `m_string`, `m_bool`, `m_int_vector`,
`m_float_vector`, `m_emum` in the source). -/
inductive MType where
  | mInt
  | mFloat
  | mString
  | mBool
  | mIntVector
  | mFloatVector
  | mEnum
deriving DecidableEq

/-- The slot selected for a Godot type string by `EntityProperty.init`
(`match type:` in `entity.py`); unrecognized types fall back to string. -/
def mtypeOfGodot (t : String) : MType :=
  match t with
  | "bool" => .mBool
  | "int" => .mInt
  | "float" => .mFloat
  | "Vector3" => .mFloatVector
  | "Vector3i" => .mIntVector
  | "Vector2" => .mFloatVector
  | "Vector2i" => .mIntVector
  | "enum" => .mEnum
  | _ => .mString

/-- Model of `entity.EntityProperty`: one typed per-object variable.  Every
payload slot exists simultaneously (as in the source, where each `bpy.props`
variable is instantiated); `m_type` selects the active one.  `m_enum_items`
holds the decoded option list (the source stores it JSON-serialized because
Blender cannot persist sequences; `get_enum_items` decodes it, and the
default string decodes to the single key `None`). -/
structure EProp where
  name : String
  description : String
  godot_type : String
  m_type : MType
  m_int : Int
  m_float : DecLit
  m_string : String
  m_bool : Bool
  m_int_vector : List Int
  m_float_vector : List DecLit
  m_enum : String
  m_enum_items : List String
deriving DecidableEq

/-- Freshly registered `EntityProperty` slots (Blender property defaults). -/
def defaultEProp : EProp :=
  { name := ""
    description := ""
    godot_type := ""
    m_type := .mInt
    m_int := 0
    m_float := ⟨0, 1⟩
    m_string := ""
    m_bool := false
    m_int_vector := [0, 0, 0]
    m_float_vector := [⟨0, 1⟩, ⟨0, 1⟩, ⟨0, 1⟩]
    m_enum := ""
    m_enum_items := ["None"] }

instance : Inhabited EProp := ⟨defaultEProp⟩

/-- The `value` property getter, `getattr(self, self.m_type)`.  For the
first six tags the attribute of that name exists and the stored payload is
returned.  For an enum-typed property the stored tag is the string
`PropTypes.ENUM.value = 'm_emum'` (a typo in `entity.py`; the registered
payload property is named `m_enum`), so `getattr` names a nonexistent
attribute and Python raises `AttributeError` on every read. -/
def EProp.value (p : EProp) : Except String PyVal :=
  match p.m_type with
  | .mInt => .ok (.pint p.m_int)
  | .mFloat => .ok (.pfloat p.m_float)
  | .mString => .ok (.pstr p.m_string)
  | .mBool => .ok (.pbool p.m_bool)
  | .mIntVector => .ok (.pintarr p.m_int_vector)
  | .mFloatVector => .ok (.pfloatarr p.m_float_vector)
  | .mEnum => .error "AttributeError"

/-- The stored payload of the active slot, as a total function: what
`EProp.value` returns whenever it does not raise.  This exists only to
state theorems that observe stored state (the enum branch reads the
`m_enum` payload slot, which the broken getter never reaches). -/
def EProp.valueOk (p : EProp) : PyVal :=
  match p.m_type with
  | .mInt => .pint p.m_int
  | .mFloat => .pfloat p.m_float
  | .mString => .pstr p.m_string
  | .mBool => .pbool p.m_bool
  | .mIntVector => .pintarr p.m_int_vector
  | .mFloatVector => .pfloatarr p.m_float_vector
  | .mEnum => .pstr p.m_enum

/-- The `value` property setter, `setattr(self, self.m_type, val)`.  On an
enum-typed property the tag is the typo `'m_emum'`, an attribute name the
class does not define, so `setattr` raises `AttributeError` before any
write.  A kind-mismatched write on the other slots raises a host
`TypeError`; no verified flow reaches it (values are only copied between
properties of equal declared Godot type, built coherently by `init`). -/
def EProp.setValue (p : EProp) (v : PyVal) : Except String EProp :=
  match p.m_type, v with
  | .mEnum, _ => .error "AttributeError"
  | .mInt, .pint n => .ok { p with m_int := n }
  | .mFloat, .pfloat d => .ok { p with m_float := d }
  | .mString, .pstr s => .ok { p with m_string := s }
  | .mBool, .pbool b => .ok { p with m_bool := b }
  | .mIntVector, .pintarr xs => .ok { p with m_int_vector := xs }
  | .mFloatVector, .pfloatarr ds => .ok { p with m_float_vector := ds }
  | _, _ => .error "TypeError"

/-- Model of `EntityProperty.init`: dispatch on the Godot type string, write
the matching payload slot, record `godot_type` and `m_type`.  A value whose
Python type does not fit the selected `bpy.props` slot raises `TypeError`
in the host (including a vector of the wrong length, or an enum value not
among the items), modelled with `Except.error`. -/
def EProp.init (name : String) (value : PyVal) (ty : String)
    (description : String) (items : List String) : Except String EProp :=
  let base : EProp :=
    { defaultEProp with name := name, godot_type := ty, description := description }
  match ty with
  | "bool" =>
    match value with
    | .pbool b => .ok { base with m_bool := b, m_type := .mBool }
    | _ => .error "TypeError"
  | "int" =>
    match value with
    | .pint n => .ok { base with m_int := n, m_type := .mInt }
    | _ => .error "TypeError"
  | "float" =>
    match value with
    | .pfloat d => .ok { base with m_float := d, m_type := .mFloat }
    | _ => .error "TypeError"
  | "Vector3" =>
    match value with
    | .pfloatarr ds =>
      if ds.length = 3 then .ok { base with m_float_vector := ds, m_type := .mFloatVector }
      else .error "TypeError"
    | _ => .error "TypeError"
  | "Vector3i" =>
    match value with
    | .pintarr xs =>
      if xs.length = 3 then .ok { base with m_int_vector := xs, m_type := .mIntVector }
      else .error "TypeError"
    | _ => .error "TypeError"
  | "Vector2" =>
    match value with
    | .pfloatarr ds =>
      if ds.length = 2 then .ok { base with m_float_vector := ds, m_type := .mFloatVector }
      else .error "TypeError"
    | _ => .error "TypeError"
  | "Vector2i" =>
    match value with
    | .pintarr xs =>
      if xs.length = 2 then .ok { base with m_int_vector := xs, m_type := .mIntVector }
      else .error "TypeError"
    | _ => .error "TypeError"
  | "enum" =>
    match value with
    | .pstr s =>
      if items.contains s then
        .ok { base with m_enum := s, m_enum_items := items, m_type := .mEnum }
      else .error "TypeError"
    | _ => .error "TypeError"
  | _ =>
    match value with
    | .pstr s => .ok { base with m_string := s, m_type := .mString }
    | _ => .error "TypeError"

/-- A property is coherent when its active slot is the one `init` selects
for its recorded Godot type; every property built by `init` is coherent and
the source never changes `m_type` afterwards. -/
def EProp.coherent (p : EProp) : Bool :=
  p.m_type = mtypeOfGodot p.godot_type

/-- One schema variable of the entity-template JSON: required `type` and
`default` fields, optional `description` and `options` (`var_def.get` in
`utilities.reset_class_definition`). -/
structure TVar where
  type : String
  default : PyVal
  description : Option String
  options : Option (List String)
deriving DecidableEq

/-- The JSON value stored under one class key of the parsed template: the
`None` sentinel maps to a plain string, real classes map to an object with
an optional `uid` and a `variables` mapping (field `vars` here, since the
word is reserved in Lean). -/
inductive ClassVal where
  | vstr (s : String)
  | vcls (uid : Option String) (vars : List (String × TVar))
deriving DecidableEq

/-- The parsed entity template `scene.entity_template.m_template`: an
insertion-ordered JSON object, modelled as an association list. -/
abbrev TemplateDoc := List (String × ClassVal)

/-- Build one `EntityProperty` the way `utilities.reset_class_definition`
does for a template variable: default value, `description` defaulting to
the empty string, `options` defaulting to the empty collection. -/
def TVar.initProp (vd : TVar) (name : String) : Except String EProp :=
  EProp.init name vd.default vd.type (vd.description.getD "") (vd.options.getD [])

/-- Python dict assignment `d[k] = v`: overwrite in place when the key
exists (keeping its position), append otherwise. -/
def dictInsert {α : Type} (d : List (String × α)) (k : String) (v : α) :
    List (String × α) :=
  if d.any (fun p => p.1 = k) then
    d.map (fun p => if p.1 = k then (k, v) else p)
  else
    d ++ [(k, v)]

/-- Python dict built from a sequence of key/value pairs in order (dict
comprehension semantics: a later duplicate key overwrites the earlier
entry in place). -/
def dictOf {α : Type} (entries : List (String × α)) : List (String × α) :=
  entries.foldl (fun d p => dictInsert d p.1 p.2) []

/-- One entry of the dictionary built by
`EntityDefinition.get_properties`. -/
structure OldEntry where
  type : String
  value : PyVal
  description : String
  items : List String
deriving DecidableEq

/-- Sequential effectful map; the model of a Python `for` loop (or
comprehension) that builds a list and aborts on the first raised
exception. -/
def mapE {α β : Type} (f : α → Except String β) : List α → Except String (List β)
  | [] => .ok []
  | x :: xs => do
    let y ← f x
    let ys ← mapE f xs
    .ok (y :: ys)

/-- Model of `EntityDefinition.get_properties`: dict comprehension mapping
each property name to its type, live value, description and decoded enum
items.  The `prop.value` read raises `AttributeError` on the first
enum-typed property encountered (the `'m_emum'` tag names no attribute),
aborting the comprehension. -/
def get_properties (props : List EProp) : Except String (List (String × OldEntry)) := do
  let entries ← mapE (fun p => do
    let v ← p.value
    Except.ok (p.name, ({ type := p.godot_type, value := v,
                          description := p.description,
                          items := p.m_enum_items } : OldEntry))) props
  .ok (dictOf entries)

/-- A scene object, reduced to the fields the addon touches: display name,
the `class_name` enum, its string backup, the `class_definition` property
collection, and the viewport selection flag. -/
structure Obj where
  name : String
  class_name : String
  class_name_backup : String
  class_definition : List EProp
  selected : Bool
deriving DecidableEq

/-- Model of `utilities.reset_class_definition` (the `class_name` update
callback): clear the property collection, record the backup, stop on the
`None` sentinel, otherwise rebuild every property from the template's
current variable list for the class, all at schema defaults.  Looking up a
missing class raises `KeyError`; indexing a non-object class value with
`variables` raises `TypeError`. -/
def reset_class_definition (tmpl : TemplateDoc) (o : Obj) : Except String Obj :=
  let o1 : Obj := { o with class_definition := [], class_name_backup := o.class_name }
  if o1.class_name = "None" then .ok o1
  else
    match tmpl.lookup o1.class_name with
    | none => .error "KeyError"
    | some (.vstr _) => .error "TypeError"
    | some (.vcls _ vars) => do
      let props ← mapE (fun nv => TVar.initProp nv.2 nv.1) vars
      .ok { o1 with class_definition := props }

/-- Assignment `object.class_name = c`: Blender validates the identifier
against the enum items (the template's key list) and then runs the
`reset_class_definition` update callback. -/
def setClassName (tmpl : TemplateDoc) (o : Obj) (c : String) : Except String Obj :=
  if (tmpl.lookup c).isSome then
    reset_class_definition tmpl { o with class_name := c }
  else
    .error "TypeError"

/-- Model of the per-object body of `utilities.refresh_class_definitions`:
skip `None`-classed objects; clear objects whose backed-up class vanished
from the template; otherwise read the old values (`get_properties`, which
raises on any stored enum-typed property), re-anchor to the backup name
(rebuilding at defaults through the update callback) and copy each old
value whose name and declared Godot type match the rebuilt property (the
`prop.value = ...` write, itself raising on an enum-typed target). -/
def refreshObject (tmpl : TemplateDoc) (o : Obj) : Except String Obj :=
  if o.class_name = "None" then .ok o
  else if (tmpl.lookup o.class_name_backup).isNone then do
    let o1 ← setClassName tmpl o "None"
    .ok { o1 with class_definition := [] }
  else do
    let old_props ← get_properties o.class_definition
    let o1 ← setClassName tmpl o o.class_name_backup
    let props ← mapE (fun p =>
      match old_props.lookup p.name with
      | some e => if p.godot_type = e.type then p.setValue e.value else .ok p
      | none => .ok p) o1.class_definition
    .ok { o1 with class_definition := props }

/-- Model of `utilities.refresh_class_definitions`: one pass over all scene
objects (a raised exception aborts the pass). -/
def refresh_class_definitions (tmpl : TemplateDoc) (objs : List Obj) :
    Except String (List Obj) :=
  mapE (refreshObject tmpl) objs

/-- Result of `SelectionPopup.compare`: a returned boolean, the implicit
Python `None` returned when no `match` case applies, or a raised
exception. -/
inductive CmpRes where
  | ret (b : Bool)
  | retNone
  | exn (msg : String)
deriving DecidableEq

/-- Exact subtraction of decimal literals (cross-multiplied onto the
common denominator `10 ^ (a.f + b.f)`). -/
def DecLit.sub (a b : DecLit) : DecLit :=
  ⟨a.m * 10 ^ b.f - b.m * 10 ^ a.f, a.f + b.f⟩

/-- Exact addition of decimal literals. -/
def DecLit.add (a b : DecLit) : DecLit :=
  ⟨a.m * 10 ^ b.f + b.m * 10 ^ a.f, a.f + b.f⟩

/-- Exact multiplication of decimal literals. -/
def DecLit.mul (a b : DecLit) : DecLit := ⟨a.m * b.m, a.f + b.f⟩

/-- Absolute value of a decimal literal. -/
def DecLit.abs (a : DecLit) : DecLit := ⟨|a.m|, a.f⟩

/-- Exact order on decimal literals (kernel-computable; `DecLit.le_iff`
below proves it agrees with the rational order). -/
def DecLit.le (a b : DecLit) : Bool := decide (a.m * 10 ^ b.f ≤ b.m * 10 ^ a.f)

/-- Exact strict order on decimal literals. -/
def DecLit.lt (a b : DecLit) : Bool := decide (a.m * 10 ^ b.f < b.m * 10 ^ a.f)

/-- Numeric (scalar) reading of a Python value; Python booleans count as
0 / 1 in numeric context. -/
def toDecScalar : PyVal → Option DecLit
  | .pint n => some ⟨n, 0⟩
  | .pfloat d => some d
  | .pbool b => some ⟨if b then 1 else 0, 0⟩
  | _ => none

/-- Element sequence of a Python value as numpy sees it: scalars become
singletons, vectors their element lists; strings are handled before this
point in `close`. -/
def toDecs : PyVal → Option (List DecLit)
  | .pint n => some [⟨n, 0⟩]
  | .pfloat d => some [d]
  | .pbool b => some [⟨if b then 1 else 0, 0⟩]
  | .pintarr xs => some (xs.map fun n => ⟨n, 0⟩)
  | .pfloatarr ds => some ds
  | .pstr _ => none

/-- The default relative tolerance of `np.allclose`, 1e-05, which
`SelectionPopup.close` leaves in place when it passes only `atol`. -/
def np_rtol : DecLit := ⟨1, 5⟩

/-- Elementwise test of `np.allclose`: `|a - b| <= atol + rtol * |b|`,
evaluated in exact decimal arithmetic. -/
def npCloseElem (atol a b : DecLit) : Bool :=
  ((a.sub b).abs).le (atol.add (np_rtol.mul b.abs))

/-- Model of `np.allclose(x, y, atol)` on element lists, including scalar
broadcasting; incompatible shapes raise (`none`). -/
def np_allclose (atol : DecLit) (xs ys : List DecLit) : Option Bool :=
  match xs, ys with
  | [x], ys => some (ys.all fun b => npCloseElem atol x b)
  | xs, [y] => some (xs.all fun a => npCloseElem atol a y)
  | xs, ys =>
    if xs.length = ys.length then
      some ((xs.zip ys).all fun ab => npCloseElem atol ab.1 ab.2)
    else none

/-- Python `==` restricted to the branch of `close` where at least one
operand is a string: equal only when both are strings with equal text. -/
def pyStrEq (x y : PyVal) : Bool :=
  match x, y with
  | .pstr a, .pstr b => a = b
  | _, _ => false

namespace SelectionPopup

/-- Model of `SelectionPopup.close(x, y, delta=1.0e-8)`: strings compare by
Python equality; everything else goes through `np.allclose(x, y, atol=delta)`
-- note the numpy default `rtol=1e-5` stays active. -/
def close (x y : PyVal) (delta : DecLit := ⟨1, 8⟩) : Except String Bool :=
  if (match x with | .pstr _ => true | _ => false) ||
     (match y with | .pstr _ => true | _ => false) then
    .ok (pyStrEq x y)
  else
    match toDecs x, toDecs y with
    | some a, some b =>
      match np_allclose delta a b with
      | some r => .ok r
      | none => .error "ValueError"
    | _, _ => .error "TypeError"

/-- Python ordering comparison used by the `<`, `<=`, `>`, `>=` cases:
numeric scalars compare numerically, strings lexicographically, anything
else raises `TypeError`. -/
def pyOrd (rc : DecLit → DecLit → Bool) (sc : String → String → Bool)
    (x y : PyVal) : CmpRes :=
  match toDecScalar x, toDecScalar y with
  | some a, some b => .ret (rc a b)
  | _, _ =>
    match x, y with
    | .pstr a, .pstr b => .ret (sc a b)
    | _, _ => .exn "TypeError"

/-- Model of `SelectionPopup.compare`.  The source's last pattern is the
string literal `case '_':`, not the wildcard `case _:`, so an operator
outside the six written cases matches nothing and the function returns the
Python value `None`. -/
def compare (x y : PyVal) (comp_type : String) : CmpRes :=
  match comp_type with
  | "<" => pyOrd DecLit.lt (fun a b => decide (a < b)) x y
  | "<=" => pyOrd DecLit.le (fun a b => decide (a < b) || decide (a = b)) x y
  | "==" =>
    match close x y with
    | .ok b => .ret b
    | .error m => .exn m
  | ">" => pyOrd (fun a b => b.lt a) (fun a b => decide (b < a)) x y
  | ">=" => pyOrd (fun a b => b.le a) (fun a b => decide (b < a) || decide (a = b)) x y
  | "_" =>
    match close x y with
    | .ok b => .ret b
    | .error m => .exn m
  | _ => .retNone

end SelectionPopup

/-- The scene-level search configuration consumed by
`SelectionPopup.execute`. -/
structure SearchState where
  search_type : String
  search_class_name : String
  search_var_name : String
  search_property : EProp
  comparison_type : String
deriving DecidableEq

/-- Outcome of `SelectionPopup.execute`: the `CANCELLED` early return (no
selection change) or the `FINISHED` pass with the updated objects. -/
inductive ExecOut where
  | cancelled
  | finished (objs : List Obj)
deriving DecidableEq

/-- Model of `SelectionPopup.execute`.  In variable-value mode with a real
target class, objects of other classes are skipped by `continue` (their
selection flag is left untouched); on a matching object the
`get_properties` read raises `AttributeError` if the object stores any
enum-typed property, a missing search variable raises `KeyError`, reading
`search_property.value` raises `AttributeError` if the search property is
enum-typed, and a non-boolean comparison result passed to `select_set`
raises `TypeError`.  In every other configuration each object is selected
exactly when its class matches. -/
def selectionExecute (st : SearchState) (objs : List Obj) : Except String ExecOut :=
  if st.search_type = "var_val" ∧ st.search_class_name ≠ "None" then
    if st.search_var_name = "" then .ok .cancelled
    else do
      let objs' ← mapE (fun o =>
        if o.class_name ≠ st.search_class_name then .ok o
        else do
          let props ← get_properties o.class_definition
          let e ← match props.lookup st.search_var_name with
            | some e => Except.ok e
            | none => Except.error "KeyError"
          let sv ← st.search_property.value
          match SelectionPopup.compare e.value sv st.comparison_type with
          | .ret b => .ok { o with selected := decide (o.class_name = st.search_class_name) && b }
          | .retNone => .error "TypeError"
          | .exn m => .error m) objs
      .ok (.finished objs')
  else
    .ok (.finished (objs.map fun o =>
      { o with selected := decide (o.class_name = st.search_class_name) }))

/-- The search predicate of the specification ("object's classTag equals
targetClass AND object has a property named variableName AND compare holds"),
stated from the spec's words for use in refutations; it is not part of the
source (a raised read counts as not matching). -/
def searchPredicateSpec (st : SearchState) (o : Obj) : Bool :=
  decide (o.class_name = st.search_class_name) &&
    (match get_properties o.class_definition, st.search_property.value with
     | .ok props, .ok sv =>
       match props.lookup st.search_var_name with
       | some e => SelectionPopup.compare e.value sv st.comparison_type = .ret true
       | none => false
     | _, _ => false)

/-- Decimal digits of a natural number, most significant first, by fuel
recursion (the fuel only bounds the digit count, so the definition stays
kernel-computable). -/
def natCharsAux : Nat → Nat → List Char
  | 0, _ => []
  | fuel + 1, n =>
    if n < 10 then [Char.ofNat (48 + n)]
    else natCharsAux fuel (n / 10) ++ [Char.ofNat (48 + n % 10)]

/-- Decimal digits of a natural number, most significant first (the text
`repr(n)` produces). -/
def natToChars (n : Nat) : List Char := natCharsAux (n + 1) n

/-- Text of a Python int. -/
def intToChars (n : Int) : List Char :=
  if n < 0 then '-' :: natToChars n.natAbs else natToChars n.natAbs

/-- Text of a Python float written as a plain decimal (`repr` of the
float): the mantissa digits padded to at least `f + 1` digits with the
decimal point inserted `f` places from the right. -/
def decToChars (d : DecLit) : List Char :=
  let digits := natToChars d.m.natAbs
  let padded := List.replicate (d.f + 1 - digits.length) '0' ++ digits
  (if d.m < 0 then ['-'] else []) ++
    padded.take (padded.length - d.f) ++ '.' :: padded.drop (padded.length - d.f)

/-- A JSON string literal for text that needs no escaping. -/
def strToChars (s : String) : List Char := '"' :: s.data ++ ['"']

/-- Join chunks with a separator (`", ".join` in Python terms). -/
def joinSep (sep : List Char) : List (List Char) → List Char
  | [] => []
  | [x] => x
  | x :: xs => x ++ sep ++ joinSep sep xs

/-- JSON text of a template default value, in `json.dumps` default
formatting (separators `", "` and `": "`). -/
def valToChars (v : PyVal) : List Char :=
  match v with
  | .pint n => intToChars n
  | .pfloat d => decToChars d
  | .pstr s => strToChars s
  | .pbool b => if b then "true".data else "false".data
  | .pintarr xs => '[' :: joinSep ", ".data (xs.map intToChars) ++ [']']
  | .pfloatarr ds => '[' :: joinSep ", ".data (ds.map decToChars) ++ [']']

/-- JSON text of a string array (enum options). -/
def strListToChars (ss : List String) : List Char :=
  '[' :: joinSep ", ".data (ss.map strToChars) ++ [']']

/-- JSON text of one schema variable object, fields in the canonical
source order `type`, `default`, `description?`, `options?`. -/
def tvarToChars (v : TVar) : List Char :=
  "\x7b\"type\": ".data ++ strToChars v.type ++
    ", \"default\": ".data ++ valToChars v.default ++
    (match v.description with
     | none => []
     | some d => ", \"description\": ".data ++ strToChars d) ++
    (match v.options with
     | none => []
     | some os => ", \"options\": ".data ++ strListToChars os) ++
    ['}']

/-- JSON text of the entries of a `variables` object. -/
def varEntriesToChars (l : List (String × TVar)) : List Char :=
  joinSep ", ".data (l.map fun kv => strToChars kv.1 ++ ": ".data ++ tvarToChars kv.2)

/-- JSON text of a `variables` object. -/
def varsToChars (l : List (String × TVar)) : List Char :=
  '{' :: varEntriesToChars l ++ ['}']

/-- JSON text of one class value (`uid` first when present, then
`variables`). -/
def classValToChars (cv : ClassVal) : List Char :=
  match cv with
  | .vstr s => strToChars s
  | .vcls uid vs =>
    '{' :: (match uid with
            | none => []
            | some u => "\"uid\": ".data ++ strToChars u ++ ", ".data) ++
      "\"variables\": ".data ++ varsToChars vs ++ ['}']

/-- JSON text of the entries of the top-level template object. -/
def tmplEntriesToChars (t : TemplateDoc) : List Char :=
  joinSep ", ".data (t.map fun kv => strToChars kv.1 ++ ": ".data ++ classValToChars kv.2)

/-- Model of `json.dumps(template)` as called by `EntityTemplate.reset`. -/
def pyJsonDumps (t : TemplateDoc) : String :=
  ⟨'{' :: tmplEntriesToChars t ++ ['}']⟩

/-- Consume an exact literal prefix. -/
def parseLit (lit : List Char) (input : List Char) : Option (List Char) :=
  match lit, input with
  | [], rest => some rest
  | c :: cs, x :: xs => if x = c then parseLit cs xs else none
  | _ :: _, [] => none

/-- Consume the body of a JSON string literal up to its closing quote. -/
def parseStrBody : List Char → Option (List Char × List Char)
  | [] => none
  | c :: cs =>
    if c = '"' then some ([], cs)
    else (parseStrBody cs).map fun p => (c :: p.1, p.2)

/-- Parse a JSON string literal. -/
def parseStr (input : List Char) : Option (String × List Char) :=
  match input with
  | '"' :: rest => (parseStrBody rest).map fun p => (⟨p.1⟩, p.2)
  | _ => none

/-- Longest digit prefix and the remainder. -/
def spanDigits : List Char → List Char × List Char
  | [] => ([], [])
  | c :: cs =>
    if c.isDigit then
      let p := spanDigits cs
      (c :: p.1, p.2)
    else ([], c :: cs)

/-- Numeric value of a digit string, folded onto an accumulator. -/
def charsToNatAux (acc : Nat) : List Char → Nat
  | [] => acc
  | c :: cs => charsToNatAux (acc * 10 + (c.toNat - 48)) cs

/-- Parse a JSON number into a Python int or float. -/
def parseNum (input : List Char) : Option (PyVal × List Char) :=
  let signed : Bool × List Char :=
    match input with
    | c :: t => if c = '-' then (true, t) else (false, input)
    | [] => (false, input)
  let ds := spanDigits signed.2
  if ds.1.isEmpty then none
  else
    let intRes : Option (PyVal × List Char) :=
      some (.pint (if signed.1 then -(charsToNatAux 0 ds.1 : Int)
                   else (charsToNatAux 0 ds.1 : Int)), ds.2)
    match ds.2 with
    | c :: r2 =>
      if c = '.' then
        let fs := spanDigits r2
        if fs.1.isEmpty then none
        else
          let mag : Nat := charsToNatAux 0 (ds.1 ++ fs.1)
          some (.pfloat ⟨if signed.1 then -(mag : Int) else (mag : Int), fs.1.length⟩, fs.2)
      else intRes
    | [] => intRes

/-- Read back a parsed element list as all-ints. -/
def toIntList : List PyVal → Option (List Int)
  | [] => some []
  | .pint n :: t => (toIntList t).map fun xs => n :: xs
  | _ => none

/-- Read back a parsed element list as all-floats. -/
def toDecList : List PyVal → Option (List DecLit)
  | [] => some []
  | .pfloat d :: t => (toDecList t).map fun ds => d :: ds
  | _ => none

/-- Parse the comma-separated numeric elements of an array up to `]`. -/
def parseNumListLoop : Nat → List Char → Option (List PyVal × List Char)
  | 0, _ => none
  | fuel + 1, input => do
    let p ← parseNum input
    match p.2 with
    | ',' :: ' ' :: r2 => (parseNumListLoop fuel r2).map fun q => (p.1 :: q.1, q.2)
    | ']' :: r2 => some ([p.1], r2)
    | _ => none

/-- Parse a JSON numeric array into a homogeneous Python vector value. -/
def parseArr (input : List Char) : Option (PyVal × List Char) :=
  match input with
  | '[' :: rest =>
    (match rest with
     | c :: cs =>
       if c = ']' then some (.pintarr [], cs)
       else do
         let p ← parseNumListLoop rest.length rest
         match toIntList p.1 with
         | some xs => some (.pintarr xs, p.2)
         | none =>
           match toDecList p.1 with
           | some ds => some (.pfloatarr ds, p.2)
           | none => none
     | [] => none)
  | _ => none

/-- Parse a JSON value in default position (string, bool, array, or
number), dispatching on the first character. -/
def parseVal (input : List Char) : Option (PyVal × List Char) :=
  match input with
  | [] => none
  | c :: _ =>
    if c = '"' then (parseStr input).map fun p => (.pstr p.1, p.2)
    else if c = 't' then (parseLit "true".data input).map fun r => (.pbool true, r)
    else if c = 'f' then (parseLit "false".data input).map fun r => (.pbool false, r)
    else if c = '[' then parseArr input
    else parseNum input

/-- Parse the comma-separated string elements of an array up to `]`. -/
def parseStrListLoop : Nat → List Char → Option (List String × List Char)
  | 0, _ => none
  | fuel + 1, input => do
    let p ← parseStr input
    match p.2 with
    | ',' :: ' ' :: r2 => (parseStrListLoop fuel r2).map fun q => (p.1 :: q.1, q.2)
    | ']' :: r2 => some ([p.1], r2)
    | _ => none

/-- Parse a JSON string array. -/
def parseStrList (input : List Char) : Option (List String × List Char) :=
  match input with
  | '[' :: rest =>
    (match rest with
     | c :: cs => if c = ']' then some ([], cs) else parseStrListLoop rest.length rest
     | [] => none)
  | _ => none

/-- Parse one schema-variable object in canonical field order. -/
def parseTVar (input : List Char) : Option (TVar × List Char) := do
  let r0 ← parseLit "\x7b\"type\": ".data input
  let pt ← parseStr r0
  let r2 ← parseLit ", \"default\": ".data pt.2
  let pv ← parseVal r2
  let pd : Option String × List Char ←
    match parseLit ", \"description\": ".data pv.2 with
    | some rr => (parseStr rr).map fun p => (some p.1, p.2)
    | none => some (none, pv.2)
  let po : Option (List String) × List Char ←
    match parseLit ", \"options\": ".data pd.2 with
    | some rr => (parseStrList rr).map fun p => (some p.1, p.2)
    | none => some (none, pd.2)
  match po.2 with
  | '}' :: r6 =>
    some ({ type := pt.1, default := pv.1, description := pd.1, options := po.1 }, r6)
  | _ => none

/-- Parse the entries of a `variables` object up to `}`. -/
def parseVarsLoop : Nat → List Char → Option (List (String × TVar) × List Char)
  | 0, _ => none
  | fuel + 1, input => do
    let pk ← parseStr input
    let r2 ← parseLit ": ".data pk.2
    let pv ← parseTVar r2
    match pv.2 with
    | ',' :: ' ' :: r4 => (parseVarsLoop fuel r4).map fun q => ((pk.1, pv.1) :: q.1, q.2)
    | '}' :: r4 => some ([(pk.1, pv.1)], r4)
    | _ => none

/-- Parse a `variables` object. -/
def parseVarsDict (input : List Char) : Option (List (String × TVar) × List Char) :=
  match input with
  | '{' :: rest =>
    (match rest with
     | c :: cs => if c = '}' then some ([], cs) else parseVarsLoop rest.length rest
     | [] => none)
  | _ => none

/-- Parse one class value: a bare string or an object with optional `uid`
and required `variables`. -/
def parseClassVal (input : List Char) : Option (ClassVal × List Char) :=
  match input with
  | '"' :: _ => (parseStr input).map fun p => (.vstr p.1, p.2)
  | '{' :: rest =>
    (match parseLit "\"uid\": ".data rest with
     | some rr => do
       let pu ← parseStr rr
       let r3 ← parseLit ", \"variables\": ".data pu.2
       let pv ← parseVarsDict r3
       match pv.2 with
       | '}' :: r5 => some (.vcls (some pu.1) pv.1, r5)
       | _ => none
     | none => do
       let r3 ← parseLit "\"variables\": ".data rest
       let pv ← parseVarsDict r3
       match pv.2 with
       | '}' :: r5 => some (.vcls none pv.1, r5)
       | _ => none)
  | _ => none

/-- Parse the entries of the top-level template object up to `}`. -/
def parseTemplateLoop : Nat → List Char → Option (TemplateDoc × List Char)
  | 0, _ => none
  | fuel + 1, input => do
    let pk ← parseStr input
    let r2 ← parseLit ": ".data pk.2
    let pv ← parseClassVal r2
    match pv.2 with
    | ',' :: ' ' :: r4 => (parseTemplateLoop fuel r4).map fun q => ((pk.1, pv.1) :: q.1, q.2)
    | '}' :: r4 => some ([(pk.1, pv.1)], r4)
    | _ => none

/-- Parse the top-level template object. -/
def parseTemplateDict (input : List Char) : Option (TemplateDoc × List Char) :=
  match input with
  | '{' :: rest =>
    (match rest with
     | c :: cs => if c = '}' then some ([], cs) else parseTemplateLoop rest.length rest
     | [] => none)
  | _ => none

/-- Model of `json.loads` on a serialized template: the whole input must be
consumed; a malformed document raises (`none`). -/
def pyJsonLoads (s : String) : Option TemplateDoc :=
  match parseTemplateDict s.data with
  | some (t, []) => some t
  | _ => none

/-- State of the `EntityTemplate` property group: the live dict and the
string mirror Blender persists across sessions. -/
structure ETState where
  m_template : TemplateDoc
  m_template_str : String
deriving DecidableEq

/-- Model of `EntityTemplate.reset`: replace the dict wholesale and store
its `json.dumps` serialization in the persisted string. -/
def ETState.reset (_s : ETState) (t : TemplateDoc) : ETState :=
  { m_template := t, m_template_str := pyJsonDumps t }

/-- Model of `EntityTemplate.init_dict`: repopulate the dict from the
persisted string after a restart (`json.loads` of the stored text). -/
def ETState.init_dict (s : ETState) : Option ETState :=
  (pyJsonLoads s.m_template_str).map fun t => { s with m_template := t }

/-- Python dict union `a | b`: keys of `a` in order with values overridden
by `b` where both have the key, then the keys only in `b`, in `b`'s
order. -/
def pyDictUnion (a b : TemplateDoc) : TemplateDoc :=
  a.map (fun kv => (kv.1, (b.lookup kv.1).getD kv.2)) ++
    b.filter fun kv => (a.lookup kv.1).isNone

/-- Model of `EntityTemplateReader.read_template_json`: reset the template
to `{'None': ''} | parsedSource`. -/
def read_template_json (s : ETState) (doc : TemplateDoc) : ETState :=
  s.reset (pyDictUnion [("None", .vstr "")] doc)

/-- Characters allowed by the well-formedness conditions on template
strings: printable ASCII with no quote or backslash, so `json.dumps`
emits them verbatim. -/
def wfChar (c : Char) : Bool :=
  c ≠ '"' && c ≠ '\\' && decide (32 ≤ c.toNat) && decide (c.toNat ≤ 126)

/-- Well-formed template string. -/
def wfStr (s : String) : Bool := s.data.all wfChar

/-- Well-formed template default: floats carry at least one fractional
digit (as Python float repr prints), float vectors are non-empty (an empty
array reads back as the int vector `[]`), strings are escape-free. -/
def wfPyVal : PyVal → Bool
  | .pint _ => true
  | .pfloat d => decide (1 ≤ d.f)
  | .pstr s => wfStr s
  | .pbool _ => true
  | .pintarr _ => true
  | .pfloatarr ds => !ds.isEmpty && ds.all fun d => decide (1 ≤ d.f)

/-- Well-formed schema variable. -/
def wfTVar (v : TVar) : Bool :=
  wfStr v.type && wfPyVal v.default &&
    (match v.description with
     | none => true
     | some d => wfStr d) &&
    (match v.options with
     | none => true
     | some os => os.all wfStr)

/-- Well-formed class value. -/
def wfClassVal : ClassVal → Bool
  | .vstr s => wfStr s
  | .vcls uid vs =>
    (match uid with
     | none => true
     | some u => wfStr u) && vs.all fun kv => wfStr kv.1 && wfTVar kv.2

/-- Well-formed template document: every key and value serializes to text
`json.loads` reads back unchanged. -/
def wfTemplateDoc (t : TemplateDoc) : Bool :=
  t.all fun kv => wfStr kv.1 && wfClassVal kv.2

/-- Godot naming sanitization used by the exporter:
`object.name.replace('.', '_')`. -/
def pyReplaceDot (s : String) : String :=
  ⟨s.data.map fun c => if c = '.' then '_' else c⟩

/-- A value of the import JSON document: either a directly serialized
Python scalar or the stringified fallback. -/
inductive JOut where
  | jint (n : Int)
  | jdec (d : DecLit)
  | jstr (s : String)
  | jbool (b : Bool)
deriving DecidableEq

/-- Python `str(value[0:])` of an int-vector slice (a list of ints). -/
def pyStrOfIntList (xs : List Int) : String :=
  ⟨'[' :: joinSep ", ".data (xs.map intToChars) ++ [']']⟩

/-- Python `str(value[0:])` of a float-vector slice (a list of floats). -/
def pyStrOfDecList (ds : List DecLit) : String :=
  ⟨'[' :: joinSep ", ".data (ds.map decToChars) ++ [']']⟩

/-- Value serialization of `EntityImportWriter.execute`: values whose
Python type is in `(int, str, bool, float)` pass through unchanged (this
includes enum selections, which are strings), anything else becomes
`str(value[0:])`, the stringified element list. -/
def serialize_value (v : PyVal) : JOut :=
  match v with
  | .pint n => .jint n
  | .pfloat d => .jdec d
  | .pstr s => .jstr s
  | .pbool b => .jbool b
  | .pintarr xs => .jstr (pyStrOfIntList xs)
  | .pfloatarr ds => .jstr (pyStrOfDecList ds)

/-- One object's entry in the import JSON: class tag, schema uid, and the
variables map `name -> (type, value)` (field `cls` models the JSON key
`class`, a reserved word in Lean). -/
structure ExpEntry where
  cls : String
  uid : String
  vars : List (String × (String × JOut))
deriving DecidableEq

/-- The uid the exporter reads for a class:
`entity_template[class_name].get('uid', '')`. -/
def uidOf (tmpl : TemplateDoc) (c : String) : String :=
  match tmpl.lookup c with
  | some (.vcls u _) => u.getD ""
  | _ => ""

/-- Build one export entry; a class tag missing from the template raises
`KeyError`, a class whose template value is a bare string raises
(`.get` on a `str`), and the `prop.value` read in the variables
comprehension raises `AttributeError` on the first enum-typed property. -/
def export_entry (tmpl : TemplateDoc) (o : Obj) : Except String ExpEntry :=
  match tmpl.lookup o.class_name with
  | some (.vcls u _) => do
    let entries ← mapE (fun p => do
      let v ← p.value
      Except.ok (p.name, (p.godot_type, serialize_value v))) o.class_definition
    .ok { cls := o.class_name
          uid := u.getD ""
          vars := dictOf entries }
  | some (.vstr _) => .error "AttributeError"
  | none => .error "KeyError"

/-- The entry `export_entry` produces when the class is present and no
value read raises (total form, for stating theorems; the value reads are
written with the total `EProp.valueOk`). -/
def mkExpEntry (tmpl : TemplateDoc) (o : Obj) : ExpEntry :=
  { cls := o.class_name
    uid := uidOf tmpl o.class_name
    vars := dictOf (o.class_definition.map fun p =>
      (p.name, (p.godot_type, serialize_value p.valueOk))) }

/-- Model of the dict comprehension in `EntityImportWriter.execute`: one
entry per scene object whose class tag is not `None`, keyed by the
sanitized display name; duplicate keys overwrite in place. -/
def export_json (tmpl : TemplateDoc) (objs : List Obj) :
    Except String (List (String × ExpEntry)) := do
  let entries ← mapE (fun o => do
      let e ← export_entry tmpl o
      Except.ok (pyReplaceDot o.name, e))
    (objs.filter fun o => o.class_name ≠ "None")
  .ok (dictOf entries)

/-- Number of entries of an export document under a given key. -/
def countKeys (k : String) (d : List (String × ExpEntry)) : Nat :=
  (d.map Prod.fst).count k

/-- The per-object transformation the variable-value search branch applies
when it raises no exception: objects of other classes pass through
untouched, objects of the target class get their selection flag set from
the comparison result. -/
def varValStep (st : SearchState) (o : Obj) : Obj :=
  if o.class_name ≠ st.search_class_name then o
  else
    match get_properties o.class_definition with
    | .ok props =>
      match props.lookup st.search_var_name with
      | some e =>
        match st.search_property.value with
        | .ok sv =>
          match SelectionPopup.compare e.value sv st.comparison_type with
          | .ret b => { o with selected := decide (o.class_name = st.search_class_name) && b }
          | _ => o
        | .error _ => o
      | none => o
    | .error _ => o

deriving instance DecidableEq for Except

/-- Total form of `TVar.initProp` for well-formed variables: the property
`EntityProperty.init` builds for a schema variable. -/
def initPropOk (nv : String × TVar) : EProp :=
  match nv.2.initProp nv.1 with
  | .ok p => p
  | .error _ => defaultEProp

/-- Sample template: the sentinel plus an `Enemy` class with an int and a
float variable (used by concrete witnesses below). -/
def tSample : TemplateDoc :=
  [("None", .vstr ""),
   ("Enemy", .vcls (some "e1")
     [("hp", ⟨"int", .pint 10, none, none⟩),
      ("speed", ⟨"float", .pfloat ⟨25, 1⟩, none, none⟩)]),
   ("Guard", .vcls (some "g1")
     [("hp", ⟨"int", .pint 10, none, none⟩)])]

/-- Template of the export example of the specification. -/
def tExport : TemplateDoc :=
  [("None", .vstr ""),
   ("Enemy", .vcls (some "e1") [("hp", ⟨"int", .pint 10, none, none⟩)])]

/-- Sample stored property: `hp` currently 7 (int). -/
def pHp : EProp :=
  { defaultEProp with name := "hp", godot_type := "int", m_type := .mInt, m_int := 7 }

/-- Search configuration: variable-value mode over `Enemy.hp == 7`. -/
def stSearch : SearchState :=
  { search_type := "var_val", search_class_name := "Enemy", search_var_name := "hp",
    search_property :=
      { defaultEProp with name := "hp", godot_type := "int", m_type := .mInt, m_int := 7 },
    comparison_type := "==" }

/-- Object of a different class left selected by an earlier run. -/
def oStale : Obj :=
  { name := "o1", class_name := "Guard", class_name_backup := "Guard",
    class_definition := [], selected := true }

/-- Object of the searched class whose `hp` matches. -/
def oHit : Obj :=
  { name := "o2", class_name := "Enemy", class_name_backup := "Enemy",
    class_definition := [pHp], selected := false }

/-- The matching object after the search marks it selected. -/
def oHitSel : Obj :=
  { name := "o2", class_name := "Enemy", class_name_backup := "Enemy",
    class_definition := [pHp], selected := true }

/-- Export example object `Goblin.001` with `hp = 7`. -/
def oGoblin : Obj :=
  { name := "Goblin.001", class_name := "Enemy", class_name_backup := "Enemy",
    class_definition := [pHp], selected := false }

/-- Two objects whose distinct display names sanitize to the same key. -/
def oDotAB : Obj :=
  { name := "a.b", class_name := "Enemy", class_name_backup := "Enemy",
    class_definition := [pHp], selected := false }

/-- Object whose backed-up class was deleted from the template. -/
def oOrphan : Obj :=
  { name := "x", class_name := "Ghost", class_name_backup := "Ghost",
    class_definition := [pHp], selected := true }

/-- Second object of the collision pair, enumerated later. -/
def oBarAB : Obj :=
  { name := "a_b", class_name := "Guard", class_name_backup := "Guard",
    class_definition := [{ defaultEProp with
        name := "hp", godot_type := "int", m_type := .mInt, m_int := 3 }],
    selected := false }

/-- Schema variable `style`: an enum over `red`/`blue` defaulting to
`red`. -/
def vStyle : TVar := ⟨"enum", .pstr "red", none, some ["red", "blue"]⟩

/-- Template whose `Enemy` class declares the enum variable `style`. -/
def tEnum : TemplateDoc :=
  [("None", .vstr ""),
   ("Enemy", .vcls (some "e1") [("style", vStyle)])]

/-- The stored property `EntityProperty.init` builds for `style`: exactly
`initPropOk ("style", vStyle)`, i.e. the state every `Enemy`-classed object
holds right after class assignment under `tEnum`. -/
def pStyle : EProp := initPropOk ("style", vStyle)

/-- Reachable scene object of class `Enemy` holding the enum-typed
property `style`. -/
def oEnum : Obj :=
  { name := "e", class_name := "Enemy", class_name_backup := "Enemy",
    class_definition := [pStyle], selected := false }

/-- First of two colliding enum-carrying objects (`a.b` sanitizes to
`a_b`). -/
def oEnumDot : Obj :=
  { name := "a.b", class_name := "Enemy", class_name_backup := "Enemy",
    class_definition := [pStyle], selected := false }

/-- Second of the colliding enum-carrying objects, enumerated later. -/
def oEnumBar : Obj :=
  { name := "a_b", class_name := "Enemy", class_name_backup := "Enemy",
    class_definition := [pStyle], selected := false }

/-- Claim C2 (status code_bug): evaluating the code at the failing input.
`compare(1.0 + 5e-7, 1.0, "==")` returns `True` even though the operands
differ by 5e-7, far outside the claimed absolute tolerance 1e-8, because
`close` passes only `atol=1e-8` to `np.allclose` and numpy's default
relative tolerance `rtol=1e-5` stays active (`5e-7 <= 1e-8 + 1e-5 * 1.0`).
The second conjunct records that the difference exceeds 1e-8, so the
claimed iff fails at this input. -/
theorem c2_compare_admits_gap_beyond_1e8 :
    SelectionPopup.compare (.pfloat ⟨10000005, 7⟩) (.pfloat ⟨10, 1⟩) "==" = .ret true ∧
    DecLit.lt ⟨1, 8⟩ ((DecLit.sub ⟨10000005, 7⟩ ⟨10, 1⟩).abs) = true := by
  decide

/-- Claim C6 (status code_bug): evaluating the code at the failing input.
For the unrecognized operator `!=` the source's `match` has no applicable
case (its last case is the string literal `'_'`, not a wildcard), so
`compare` returns Python `None` instead of the `==` fallback the claim
describes; only the literal operator `"_"` gets the fallback. -/
theorem c6_compare_unrecognized_op_returns_none :
    SelectionPopup.compare (.pstr "a") (.pstr "a") "!=" = .retNone ∧
    SelectionPopup.compare (.pstr "a") (.pstr "a") "==" = .ret true ∧
    SelectionPopup.compare (.pstr "a") (.pstr "a") "_" = .ret true := by
  decide

/-- Claim C8: for every parsed source document, the template produced by
`read_template_json` (which resets to `{'None': ''} | source`) has `None`
as its first key, regardless of the source's content and ordering. -/
theorem c8_template_keys_begin_with_none (doc : TemplateDoc) (s : ETState) :
    ((read_template_json s doc).m_template.map Prod.fst).head? = some "None" := by
  simp [read_template_json, ETState.reset, pyDictUnion]

/-- Claim C3, counterexample: after a variable-value search for
`Enemy.hp == 7`, the `Guard` object `oStale` — for which the search
predicate is false — is still flagged selected from a previous run, because
the loop `continue`s past objects of other classes without deselecting
them.  So not every object's selected flag equals the predicate. -/
theorem c3_counterexample_stale_selection :
    selectionExecute stSearch [oStale, oHit] = .ok (.finished [oStale, oHitSel]) ∧
    oStale.selected = true ∧
    searchPredicateSpec stSearch oStale = false := by
  decide

theorem mapE_ok {α β : Type} (f : α → Except String β) (g : α → β) :
    ∀ l : List α, (∀ x ∈ l, f x = .ok (g x)) → mapE f l = .ok (l.map g) := by
  intro l
  induction l with
  | nil => intro _; rfl
  | cons x xs ih =>
    intro h
    simp only [mapE, h x (by simp), ih (fun y hy => h y (by simp [hy])), List.map_cons]
    rfl

theorem value_of_ne_enum (p : EProp) (h : p.m_type ≠ MType.mEnum) :
    p.value = .ok p.valueOk := by
  cases hp : p.m_type
  case mEnum => exact absurd hp h
  all_goals simp [EProp.value, EProp.valueOk, hp]

theorem dictInsert_append {α : Type} (l : List (String × α)) (k : String) (v : α)
    (h : l.any (fun p => p.1 = k) = false) : dictInsert l k v = l ++ [(k, v)] := by
  simp [dictInsert, h]

theorem dictOf_eq_of_nodup {α : Type} :
    ∀ l : List (String × α), (l.map Prod.fst).Nodup → dictOf l = l := by
  have aux : ∀ (l acc : List (String × α)),
      (l.map Prod.fst).Nodup →
      (∀ p ∈ l, acc.any (fun q => q.1 = p.1) = false) →
      l.foldl (fun d p => dictInsert d p.1 p.2) acc = acc ++ l := by
    intro l
    induction l with
    | nil => intro acc _ _; simp
    | cons x xs ih =>
      intro acc hnd hdis
      have hx : acc.any (fun q => q.1 = x.1) = false := hdis x (by simp)
      have step : dictInsert acc x.1 x.2 = acc ++ [(x.1, x.2)] := dictInsert_append _ _ _ hx
      have hnd' : (xs.map Prod.fst).Nodup := by
        simpa using hnd.of_cons
      have hxnot : x.1 ∉ xs.map Prod.fst := by
        have := hnd
        simp only [List.map_cons, List.nodup_cons] at this
        exact this.1
      have hdis' : ∀ p ∈ xs, ((acc ++ [(x.1, x.2)]).any fun q => q.1 = p.1) = false := by
        intro p hp
        simp only [List.any_append, List.any_cons, List.any_nil, Bool.or_eq_false_iff]
        refine ⟨hdis p (by simp [hp]), ?_, trivial⟩
        simp only [decide_eq_false_iff_not]
        intro heq
        exact hxnot (heq ▸ (List.mem_map_of_mem Prod.fst hp))
      simp only [List.foldl_cons, step, ih (acc ++ [(x.1, x.2)]) hnd' hdis']
      simp
  intro l h
  simpa using aux l [] h (by simp)

theorem lookup_map_by_name {α : Type} (props : List EProp) (F : EProp → α) (n : String) :
    (props.map fun p => (p.name, F p)).lookup n = (props.find? fun p => n == p.name).map F := by
  induction props with
  | nil => rfl
  | cons p t ih =>
    by_cases h : n == p.name
    · simp [List.lookup, List.find?, h]
    · simp only [List.map_cons, List.lookup, List.find?, h]
      simpa using ih

theorem find?_name_eq_of_mem {props : List EProp}
    (hnd : (props.map (fun p => p.name)).Nodup) {q : EProp} (hq : q ∈ props) :
    props.find? (fun p => q.name == p.name) = some q := by
  induction props with
  | nil => cases hq
  | cons p t ih =>
    rcases List.mem_cons.mp hq with rfl | hq'
    · simp [List.find?]
    · have hne : q.name ≠ p.name := by
        simp only [List.map_cons, List.nodup_cons] at hnd
        intro heq
        exact hnd.1 (heq ▸ List.mem_map_of_mem (fun p => p.name) hq')
      have : (q.name == p.name) = false := by simpa using hne
      simp only [List.find?, this]
      exact ih (by simpa using hnd.of_cons) hq'

theorem find?_name_eq_none {props : List EProp} {n : String}
    (h : ∀ q ∈ props, q.name ≠ n) :
    props.find? (fun p => n == p.name) = none := by
  induction props with
  | nil => rfl
  | cons p t ih =>
    have : (n == p.name) = false := by
      simpa using fun heq => h p (by simp) heq.symm
    simp only [List.find?, this]
    exact ih fun q hq => h q (by simp [hq])

theorem mem_unique_of_nodup_names {props : List EProp}
    (hnd : (props.map (fun p => p.name)).Nodup) {a b : EProp}
    (ha : a ∈ props) (hb : b ∈ props) (hab : a.name = b.name) : a = b := by
  induction props with
  | nil => cases ha
  | cons p t ih =>
    simp only [List.map_cons, List.nodup_cons] at hnd
    rcases List.mem_cons.mp ha with rfl | ha' <;> rcases List.mem_cons.mp hb with rfl | hb'
    · rfl
    · exact absurd (hab ▸ List.mem_map_of_mem (fun p => p.name) hb') hnd.1
    · exact absurd (hab ▸ List.mem_map_of_mem (fun p => p.name) ha') hnd.1
    · exact ih hnd.2 ha' hb'

theorem setClassName_to_none (tmpl : TemplateDoc) (o : Obj)
    (h : (tmpl.lookup "None").isSome = true) :
    setClassName tmpl o "None" =
      .ok { o with class_name := "None", class_name_backup := "None",
                   class_definition := [] } := by
  unfold setClassName reset_class_definition
  simp [h]

/-- Claim C4: full reconciliation of an object whose backed-up class tag is
no longer a template key ends with class tag `None` and an empty property
set, raising no error.  The hypothesis `hinv` is the reachability invariant
that a `None`-classed object has no properties (any assignment of the
`None` tag clears them). -/
theorem c4_refresh_clears_deleted_class (tmpl : TemplateDoc) (o : Obj)
    (hnone : (tmpl.lookup "None").isSome = true)
    (hb : tmpl.lookup o.class_name_backup = none)
    (hinv : o.class_name = "None" → o.class_definition = []) :
    ∃ o', refreshObject tmpl o = .ok o' ∧
      o'.class_name = "None" ∧ o'.class_definition = [] ∧
      o'.name = o.name ∧ o'.selected = o.selected := by
  by_cases hcn : o.class_name = "None"
  · exact ⟨o, by simp [refreshObject, hcn], hcn, hinv hcn, rfl, rfl⟩
  · refine ⟨{ o with class_name := "None", class_name_backup := "None", class_definition := ([] : List EProp) }, ?_, rfl, rfl, rfl, rfl⟩
    unfold refreshObject
    simp only [hcn, if_false, hb, Option.isNone_none, if_true,
      setClassName_to_none tmpl o hnone]
    rfl

/-- Claim C1 (status code_bug): the claimed universal value preservation
fails on every reachable scene holding an enum-typed property.  `oEnum`'s
class `Enemy` still exists in `tEnum` and still declares the same variable
`style` with the same declared type `enum` (second conjunct), and the
object's stored definition is exactly the property the addon itself built
for that schema variable (third conjunct), so the claim requires the
rebuilt `style` to carry the previous value; instead the whole pass raises
`AttributeError`: `get_properties` reads `prop.value`, which is
`getattr(self, 'm_emum')` because `PropTypes.ENUM` is a typo for the
registered attribute name `m_enum`, before anything is preserved. -/
theorem c1_refresh_enum_value_read_raises :
    refresh_class_definitions tEnum [oEnum] = .error "AttributeError" ∧
    tEnum.lookup oEnum.class_name_backup =
      some (.vcls (some "e1") [("style", vStyle)]) ∧
    oEnum.class_definition = [initPropOk ("style", vStyle)] := by
  decide

/-- Witness for `c4_refresh_clears_deleted_class`: class `Ghost` is gone
from `tSample`, so `oOrphan` is downgraded to `None` and cleared. -/
theorem c4_refresh_witness :
    ∃ o', refreshObject tSample oOrphan = .ok o' ∧
      o'.class_name = "None" ∧ o'.class_definition = [] ∧
      o'.name = oOrphan.name ∧ o'.selected = oOrphan.selected :=
  c4_refresh_clears_deleted_class tSample oOrphan (by decide) (by decide) (by decide)

/-- Claim C3, amended: one search invocation behaves as follows under the
stated coverage hypotheses (which in particular require every target-class
object's stored definition to be free of enum-typed properties, so that no
`AttributeError` is raised by the `'m_emum'` typo).  In class mode (or in
variable-value mode with target class `None`), every object's selected
flag is set to the class-match predicate in one pass.  In variable-value
mode with a real target class and a non-empty variable name, every object
of the target class gets its flag set from the comparison result, while
every object of a different class keeps its previous flag. -/
theorem c3_amended_selection_semantics (st : SearchState) (objs : List Obj)
    (hvar : st.search_type = "var_val" → st.search_class_name ≠ "None" →
      st.search_var_name ≠ "")
    (hcov : ∀ o ∈ objs, st.search_type = "var_val" → st.search_class_name ≠ "None" →
      o.class_name = st.search_class_name →
      ∃ props e sv b, get_properties o.class_definition = .ok props ∧
        props.lookup st.search_var_name = some e ∧
        st.search_property.value = .ok sv ∧
        SelectionPopup.compare e.value sv st.comparison_type = .ret b) :
    ∃ objs', selectionExecute st objs = .ok (.finished objs') ∧
      objs'.length = objs.length ∧
      ∀ i o, objs.get? i = some o →
        (¬(st.search_type = "var_val" ∧ st.search_class_name ≠ "None") →
          objs'.get? i = some { o with
            selected := decide (o.class_name = st.search_class_name) }) ∧
        ((st.search_type = "var_val" ∧ st.search_class_name ≠ "None") →
          (o.class_name ≠ st.search_class_name → objs'.get? i = some o) ∧
          (o.class_name = st.search_class_name →
            ∀ props e sv b, get_properties o.class_definition = .ok props →
              props.lookup st.search_var_name = some e →
              st.search_property.value = .ok sv →
              SelectionPopup.compare e.value sv st.comparison_type = .ret b →
              objs'.get? i = some { o with selected := b })) := by
  by_cases hmode : st.search_type = "var_val" ∧ st.search_class_name ≠ "None"
  · -- variable-value mode with a real target class
    have hv : ¬ st.search_var_name = "" := hvar hmode.1 hmode.2
    have hstep : ∀ o ∈ objs,
        (if o.class_name ≠ st.search_class_name then Except.ok o
         else do
           let props ← get_properties o.class_definition
           let e ← match props.lookup st.search_var_name with
             | some e => Except.ok e
             | none => Except.error "KeyError"
           let sv ← st.search_property.value
           match SelectionPopup.compare e.value sv st.comparison_type with
           | .ret b => Except.ok { o with
               selected := decide (o.class_name = st.search_class_name) && b }
           | .retNone => Except.error "TypeError"
           | .exn m => Except.error m) = .ok (varValStep st o) := by
      intro o ho
      by_cases hcls : o.class_name = st.search_class_name
      · obtain ⟨props, e, sv, b, hp, he, hsv, hb⟩ := hcov o ho hmode.1 hmode.2 hcls
        simp only [varValStep, hcls, ne_eq, not_true_eq_false, if_false, hp, he, hsv,
          bind, Except.bind, hb]
      · simp [varValStep, hcls]
    refine ⟨objs.map (varValStep st), ?_, by simp, ?_⟩
    · unfold selectionExecute
      rw [if_pos hmode, if_neg hv]
      rw [mapE_ok _ (varValStep st) objs hstep]
      rfl
    · intro i o hio
      have hget : (objs.map (varValStep st)).get? i = some (varValStep st o) := by
        rw [List.get?_eq_getElem?, List.getElem?_map]
        rw [List.get?_eq_getElem?] at hio
        rw [hio]
        rfl
      refine ⟨fun hc => absurd hmode hc, fun _ => ⟨?_, ?_⟩⟩
      · intro hne
        rw [hget]
        simp [varValStep, hne]
      · intro hcls props e sv b hp he hsv hb
        rw [hget]
        simp only [varValStep, hcls, ne_eq, not_true_eq_false, if_false, hp, he, hsv, hb]
        simp [hcls]
  · -- class mode (or variable-value mode with target None)
    refine ⟨objs.map (fun o =>
      { o with selected := decide (o.class_name = st.search_class_name) }), ?_, by simp, ?_⟩
    · unfold selectionExecute
      rw [if_neg hmode]
    · intro i o hio
      refine ⟨fun _ => ?_, fun hm => absurd hm hmode⟩
      rw [List.get?_eq_getElem?, List.getElem?_map]
      rw [List.get?_eq_getElem?] at hio
      rw [hio]
      rfl

/-- Witness for `c3_amended_selection_semantics` at the concrete search
`Enemy.hp == 7` over the two-object scene. -/
theorem c3_amended_witness :
    ∃ objs', selectionExecute stSearch [oStale, oHit] = .ok (.finished objs') ∧
      objs'.length = [oStale, oHit].length ∧
      ∀ i o, [oStale, oHit].get? i = some o →
        (¬(stSearch.search_type = "var_val" ∧ stSearch.search_class_name ≠ "None") →
          objs'.get? i = some { o with
            selected := decide (o.class_name = stSearch.search_class_name) }) ∧
        ((stSearch.search_type = "var_val" ∧ stSearch.search_class_name ≠ "None") →
          (o.class_name ≠ stSearch.search_class_name → objs'.get? i = some o) ∧
          (o.class_name = stSearch.search_class_name →
            ∀ props e sv b, get_properties o.class_definition = .ok props →
              props.lookup stSearch.search_var_name = some e →
              stSearch.search_property.value = .ok sv →
              SelectionPopup.compare e.value sv stSearch.comparison_type = .ret b →
              objs'.get? i = some { o with selected := b })) :=
  c3_amended_selection_semantics stSearch [oStale, oHit]
    (fun _ _ => by decide)
    (by
      intro o ho _ _ hcls
      rcases List.mem_cons.mp ho with rfl | ho'
      · exact absurd hcls (by decide)
      · rcases List.mem_cons.mp ho' with rfl | h
        · exact ⟨[("hp", ⟨"int", .pint 7, "", ["None"]⟩)],
            ⟨"int", .pint 7, "", ["None"]⟩, .pint 7, true,
            by decide, by decide, by decide, by decide⟩
        · simp at h)

theorem export_entry_ok (tmpl : TemplateDoc) (o : Obj) (u : Option String)
    (vs : List (String × TVar)) (h : tmpl.lookup o.class_name = some (.vcls u vs))
    (hen : ∀ p ∈ o.class_definition, p.m_type ≠ MType.mEnum) :
    export_entry tmpl o = .ok (mkExpEntry tmpl o) := by
  have hmap : mapE (fun p => do
      let v ← p.value
      Except.ok (p.name, (p.godot_type, serialize_value v))) o.class_definition =
      .ok (o.class_definition.map fun p =>
        (p.name, (p.godot_type, serialize_value p.valueOk))) := by
    refine mapE_ok _ _ _ fun p hp => ?_
    rw [value_of_ne_enum p (hen p hp)]
    rfl
  unfold export_entry mkExpEntry uidOf
  simp only [h]
  rw [hmap]
  rfl

/-- Claim C9 (status code_bug): the claimed export document is not
produced for any scene holding an enum-typed property.  `oEnum`'s class is
not `None` and is present in the template (second and third conjuncts), so
the claim requires an entry for it whose `style` value (a string) passes
through; instead the variables comprehension's `prop.value` read does
`getattr(self, 'm_emum')` — `PropTypes.ENUM` is a typo for the registered
attribute name `m_enum` — and the export raises `AttributeError`,
producing no document at all. -/
theorem c9_export_enum_raises :
    export_json tEnum [oEnum] = .error "AttributeError" ∧
    oEnum.class_name ≠ "None" ∧
    (tEnum.lookup oEnum.class_name).isSome = true := by
  decide


theorem lookup_cons {α : Type} (k k1 : String) (v1 : α) (t : List (String × α)) :
    List.lookup k ((k1, v1) :: t) = if k = k1 then some v1 else List.lookup k t := by
  show (match k == k1 with
        | true => some v1
        | false => List.lookup k t) = _
  by_cases h : k = k1
  · simp [h]
  · simp [(by simpa using h : (k == k1) = false), h]

theorem dictInsert_lookup_self {α : Type} (k : String) (v : α) :
    ∀ d : List (String × α), (dictInsert d k v).lookup k = some v := by
  have hmap : ∀ t : List (String × α), t.any (fun p => p.1 = k) = true →
      (t.map fun p => if p.1 = k then (k, v) else p).lookup k = some v := by
    intro t
    induction t with
    | nil => intro h; simp at h
    | cons p t ih =>
      obtain ⟨k1, v1⟩ := p
      intro h
      by_cases hp : k1 = k
      · subst hp
        simp [lookup_cons]
      · have hkk1 : ¬k = k1 := fun he => hp he.symm
        have ht : t.any (fun p => p.1 = k) = true := by simpa [hp] using h
        simp only [List.map_cons, if_neg hp, lookup_cons, if_neg hkk1]
        exact ih ht
  have happ : ∀ t : List (String × α), t.any (fun p => p.1 = k) = false →
      (t ++ [(k, v)]).lookup k = some v := by
    intro t
    induction t with
    | nil => simp [lookup_cons]
    | cons p t ih =>
      obtain ⟨k1, v1⟩ := p
      intro h
      have hne : ¬k1 = k := by intro he; simp [he] at h
      have hkk1 : ¬k = k1 := fun he => hne he.symm
      simp only [List.cons_append, lookup_cons, if_neg hkk1]
      exact ih (by simpa [hne] using h)
  intro d
  unfold dictInsert
  cases h : d.any (fun p => p.1 = k)
  · simp only [Bool.false_eq_true, if_false]
    exact happ d h
  · simp only [if_true]
    exact hmap d h

theorem dictInsert_lookup_ne {α : Type} (k' k : String) (v : α) (h : k ≠ k') :
    ∀ d : List (String × α), (dictInsert d k' v).lookup k = d.lookup k := by
  have hmap : ∀ t : List (String × α),
      (t.map fun p => if p.1 = k' then (k', v) else p).lookup k = t.lookup k := by
    intro t
    induction t with
    | nil => rfl
    | cons p t ih =>
      obtain ⟨k1, v1⟩ := p
      by_cases hp : k1 = k'
      · subst hp
        simp [lookup_cons, if_neg h, ih]
      · simp [List.map_cons, if_neg hp, lookup_cons, ih]
  have happ : ∀ t : List (String × α), (t ++ [(k', v)]).lookup k = t.lookup k := by
    intro t
    induction t with
    | nil =>
      show (match k == k' with
            | true => some v
            | false => none) = none
      simp [(by simpa using h : (k == k') = false)]
    | cons p t ih =>
      obtain ⟨k1, v1⟩ := p
      simp only [List.cons_append, lookup_cons, ih]
  intro d
  unfold dictInsert
  cases hmem : d.any (fun p => p.1 = k')
  · simp only [Bool.false_eq_true, if_false]
    exact happ d
  · simp only [if_true]
    exact hmap d

theorem dictInsert_keys_of_mem {α : Type} (d : List (String × α)) (k : String)
    (v : α) (h : d.any (fun p => p.1 = k) = true) :
    (dictInsert d k v).map Prod.fst = d.map Prod.fst := by
  unfold dictInsert
  simp only [h, if_true, List.map_map]
  apply List.map_congr_left
  intro p _
  by_cases hp : p.1 = k
  · simp [Function.comp, hp]
  · simp [Function.comp, hp]

theorem dictInsert_keys_of_not_mem {α : Type} (d : List (String × α)) (k : String)
    (v : α) (h : d.any (fun p => p.1 = k) = false) :
    (dictInsert d k v).map Prod.fst = d.map Prod.fst ++ [k] := by
  unfold dictInsert
  simp [h]

theorem anyKey_false_iff {α : Type} (d : List (String × α)) (k : String) :
    d.any (fun p => p.1 = k) = false ↔ k ∉ d.map Prod.fst := by
  rw [← Bool.not_eq_true, List.any_eq_true]
  simp [List.mem_map, eq_comm]

theorem dictFold_no_key {α : Type} (k : String) :
    ∀ (l : List (String × α)) (acc : List (String × α)),
      (∀ p ∈ l, p.1 ≠ k) →
      (l.foldl (fun d p => dictInsert d p.1 p.2) acc).lookup k = acc.lookup k ∧
      ((l.foldl (fun d p => dictInsert d p.1 p.2) acc).map Prod.fst).count k =
        (acc.map Prod.fst).count k := by
  intro l
  induction l with
  | nil => intro acc _; exact ⟨rfl, rfl⟩
  | cons p t ih =>
    intro acc h
    have hp : p.1 ≠ k := h p (by simp)
    have ht : ∀ q ∈ t, q.1 ≠ k := fun q hq => h q (by simp [hq])
    have hlk : (dictInsert acc p.1 p.2).lookup k = acc.lookup k :=
      dictInsert_lookup_ne p.1 k p.2 (fun he => hp he.symm) acc
    have hct : ((dictInsert acc p.1 p.2).map Prod.fst).count k =
        (acc.map Prod.fst).count k := by
      cases hmem : acc.any (fun q => q.1 = p.1)
      · rw [dictInsert_keys_of_not_mem acc p.1 p.2 hmem]
        have hkp : ¬k = p.1 := fun he => hp he.symm
        simp [List.count_append, List.count_cons, hkp]
      · rw [dictInsert_keys_of_mem acc p.1 p.2 hmem]
    have := ih (dictInsert acc p.1 p.2) ht
    exact ⟨by rw [List.foldl_cons, this.1, hlk],
           by rw [List.foldl_cons, this.2, hct]⟩

/-- Claim C10, amended: when two non-`None` objects with distinct display
names share a sanitized key — provided no exported object stores an
enum-typed property (otherwise the export raises `AttributeError` through
the `'m_emum'` typo and produces nothing) — the export document carries a
single entry under that key, holding the later-enumerated object's data,
and the export raises no error. -/
theorem c10_export_collision_last_wins (tmpl : TemplateDoc) (objs : List Obj)
    (k : String) (l1 l2 l3 : List Obj) (a b : Obj)
    (hsplit : objs.filter (fun o => o.class_name ≠ "None") = l1 ++ a :: (l2 ++ b :: l3))
    (hak : pyReplaceDot a.name = k) (hbk : pyReplaceDot b.name = k)
    (hab : a.name ≠ b.name)
    (hothers : ∀ o ∈ l1 ++ (l2 ++ l3), pyReplaceDot o.name ≠ k)
    (hcls : ∀ o ∈ objs, o.class_name ≠ "None" →
      ∃ u vs, tmpl.lookup o.class_name = some (.vcls u vs))
    (henum : ∀ o ∈ objs, o.class_name ≠ "None" →
      ∀ p ∈ o.class_definition, p.m_type ≠ MType.mEnum) :
    ∃ d, export_json tmpl objs = .ok d ∧ countKeys k d = 1 ∧
      d.lookup k = some (mkExpEntry tmpl b) := by
  have hstep : ∀ o ∈ objs.filter (fun o => o.class_name ≠ "None"),
      (do
        let e ← export_entry tmpl o
        Except.ok (pyReplaceDot o.name, e)) =
        Except.ok (pyReplaceDot o.name, mkExpEntry tmpl o) := by
    intro o ho
    have hmem : o ∈ objs ∧ o.class_name ≠ "None" := by
      have := List.mem_filter.mp ho
      exact ⟨this.1, by simpa using this.2⟩
    obtain ⟨u, vs, hu⟩ := hcls o hmem.1 hmem.2
    rw [export_entry_ok tmpl o u vs hu (henum o hmem.1 hmem.2)]
    rfl
  set g : Obj → String × ExpEntry :=
    fun o => (pyReplaceDot o.name, mkExpEntry tmpl o) with hg
  refine ⟨dictOf ((objs.filter (fun o => o.class_name ≠ "None")).map g), ?_, ?_⟩
  · unfold export_json
    rw [mapE_ok _ g _ hstep]
    rfl
  · rw [hsplit]
    simp only [List.map_append, List.map_cons]
    unfold dictOf
    rw [List.foldl_append, List.foldl_cons, List.foldl_append, List.foldl_cons]
    have hE1 : ∀ p ∈ l1.map g, p.1 ≠ k := by
      intro p hp
      obtain ⟨o, ho, rfl⟩ := List.mem_map.mp hp
      exact hothers o (by simp [ho])
    have hE2 : ∀ p ∈ l2.map g, p.1 ≠ k := by
      intro p hp
      obtain ⟨o, ho, rfl⟩ := List.mem_map.mp hp
      exact hothers o (by simp [ho])
    have hE3 : ∀ p ∈ l3.map g, p.1 ≠ k := by
      intro p hp
      obtain ⟨o, ho, rfl⟩ := List.mem_map.mp hp
      exact hothers o (by simp [ho])
    set d1 := (l1.map g).foldl (fun d p => dictInsert d p.1 p.2) [] with hd1
    have h1 := dictFold_no_key k (l1.map g) [] hE1
    have h1lk : d1.lookup k = none := by rw [hd1, h1.1]; rfl
    have h1ct : (d1.map Prod.fst).count k = 0 := by rw [hd1, h1.2]; rfl
    have h1mem : k ∉ d1.map Prod.fst := by
      intro hmem
      have := List.count_pos_iff.mpr hmem
      omega
    have h1any : d1.any (fun p => p.1 = k) = false := (anyKey_false_iff d1 k).mpr h1mem
    set d2 := dictInsert d1 (g a).1 (g a).2 with hd2
    have hga1 : (g a).1 = k := by rw [hg]; exact hak
    have h2ct : (d2.map Prod.fst).count k = 1 := by
      rw [hd2, hga1, dictInsert_keys_of_not_mem d1 k _ h1any]
      simp [List.count_append, h1ct]
    set d3 := (l2.map g).foldl (fun d p => dictInsert d p.1 p.2) d2 with hd3
    have h3 := dictFold_no_key k (l2.map g) d2 hE2
    have h3ct : (d3.map Prod.fst).count k = 1 := by rw [hd3, h3.2, h2ct]
    have h3mem : k ∈ d3.map Prod.fst := by
      apply List.count_pos_iff.mp
      omega
    have h3any : d3.any (fun p => p.1 = k) = true := by
      cases hc : d3.any (fun p => p.1 = k)
      · exact absurd h3mem ((anyKey_false_iff d3 k).mp hc)
      · rfl
    set d4 := dictInsert d3 (g b).1 (g b).2 with hd4
    have hgb1 : (g b).1 = k := by rw [hg]; exact hbk
    have h4ct : (d4.map Prod.fst).count k = 1 := by
      rw [hd4, hgb1, dictInsert_keys_of_mem d3 k _ (by rwa [← hgb1] at h3any ⊢)]
      exact h3ct
    have h4lk : d4.lookup k = some (mkExpEntry tmpl b) := by
      rw [hd4, hgb1]
      exact dictInsert_lookup_self k (g b).2 d3
    have h5 := dictFold_no_key k (l3.map g) d4 hE3
    constructor
    · unfold countKeys
      rw [h5.2, h4ct]
    · rw [h5.1, h4lk]

/-- Claim C10, counterexample: the original claim promises a single
last-wins entry "with no error reported" for every sanitized-name
collision among non-`None` objects; when the colliding objects hold an
enum-typed property, the export raises `AttributeError` instead (the
`'m_emum'` typo) and no document is produced. -/
theorem c10_counterexample_enum_collision_raises :
    pyReplaceDot oEnumDot.name = pyReplaceDot oEnumBar.name ∧
    oEnumDot.name ≠ oEnumBar.name ∧
    oEnumDot.class_name ≠ "None" ∧ oEnumBar.class_name ≠ "None" ∧
    export_json tEnum [oEnumDot, oEnumBar] = .error "AttributeError" := by
  decide

/-- Witness for `c10_export_collision_last_wins`: objects `a.b` and `a_b`
collide on the sanitized key `a_b`; the later object's entry wins. -/
theorem c10_export_witness :
    ∃ d, export_json tSample [oDotAB, oBarAB] = .ok d ∧
      countKeys "a_b" d = 1 ∧
      d.lookup "a_b" = some (mkExpEntry tSample oBarAB) :=
  c10_export_collision_last_wins tSample [oDotAB, oBarAB] "a_b" [] [] []
    oDotAB oBarAB (by decide) (by decide) (by decide) (by decide)
    (by intro o ho; simp at ho)
    (by
      intro o ho _
      rcases List.mem_cons.mp ho with rfl | ho'
      · exact ⟨some "e1",
          [("hp", ⟨"int", .pint 10, none, none⟩),
           ("speed", ⟨"float", .pfloat ⟨25, 1⟩, none, none⟩)], by decide⟩
      · rcases List.mem_cons.mp ho' with rfl | h
        · exact ⟨some "g1", [("hp", ⟨"int", .pint 10, none, none⟩)], by decide⟩
        · simp at h)
    (by decide)

theorem digit_toNat {n : Nat} (h : n < 10) : (Char.ofNat (48 + n)).toNat = 48 + n := by
  interval_cases n <;> decide

theorem digit_isDigit {n : Nat} (h : n < 10) : (Char.ofNat (48 + n)).isDigit = true := by
  interval_cases n <;> decide

theorem isDigit_toNat_bounds {c : Char} (h : c.isDigit = true) :
    48 ≤ c.toNat ∧ c.toNat ≤ 57 := by
  simp only [Char.isDigit] at h
  rw [Bool.and_eq_true] at h
  constructor
  · have := h.1
    simp only [decide_eq_true_eq] at this
    exact this
  · have := h.2
    simp only [decide_eq_true_eq] at this
    exact this

theorem natCharsAux_succ (fuel n : Nat) :
    natCharsAux (fuel + 1) n =
      if n < 10 then [Char.ofNat (48 + n)]
      else natCharsAux fuel (n / 10) ++ [Char.ofNat (48 + n % 10)] := rfl

theorem charsToNatAux_nil (acc : Nat) : charsToNatAux acc [] = acc := rfl

theorem charsToNatAux_cons (acc : Nat) (c : Char) (t : List Char) :
    charsToNatAux acc (c :: t) = charsToNatAux (acc * 10 + (c.toNat - 48)) t := rfl

theorem natCharsAux_all_digits :
    ∀ fuel n, (natCharsAux fuel n).all Char.isDigit = true := by
  intro fuel
  induction fuel with
  | zero => intro n; rfl
  | succ fuel ih =>
    intro n
    rw [natCharsAux_succ]
    by_cases h : n < 10
    · rw [if_pos h]
      simp [digit_isDigit h]
    · rw [if_neg h]
      simp only [List.all_append, Bool.and_eq_true]
      exact ⟨ih (n / 10), by simp [digit_isDigit (Nat.mod_lt n (by omega))]⟩

theorem natCharsAux_ne_nil (fuel n : Nat) :
    natCharsAux (fuel + 1) n ≠ [] := by
  rw [natCharsAux_succ]
  by_cases h : n < 10
  · rw [if_pos h]; simp
  · rw [if_neg h]; simp

theorem charsToNatAux_append (acc : Nat) (xs ys : List Char) :
    charsToNatAux acc (xs ++ ys) = charsToNatAux (charsToNatAux acc xs) ys := by
  induction xs generalizing acc with
  | nil => rfl
  | cons c t ih =>
    rw [List.cons_append, charsToNatAux_cons, charsToNatAux_cons, ih]

theorem natCharsAux_value :
    ∀ fuel n acc, n < fuel →
      charsToNatAux acc (natCharsAux fuel n) =
        acc * 10 ^ (natCharsAux fuel n).length + n := by
  intro fuel
  induction fuel with
  | zero => intro n acc h; omega
  | succ fuel ih =>
    intro n acc h
    rw [natCharsAux_succ]
    by_cases hn : n < 10
    · rw [if_pos hn, charsToNatAux_cons, charsToNatAux_nil, digit_toNat hn]
      simp only [List.length_singleton, pow_one]
      omega
    · rw [if_neg hn]
      have hdiv : n / 10 < fuel := by
        have h1 : n / 10 < n := Nat.div_lt_self (by omega) (by omega)
        omega
      rw [charsToNatAux_append, ih (n / 10) acc hdiv, charsToNatAux_cons,
        charsToNatAux_nil, digit_toNat (Nat.mod_lt n (by omega))]
      simp only [List.length_append, List.length_singleton]
      set L := (natCharsAux fuel (n / 10)).length with hL
      have h48 : 48 + n % 10 - 48 = n % 10 := by omega
      rw [h48, pow_succ]
      have hdm : n / 10 * 10 + n % 10 = n := by omega
      calc (acc * 10 ^ L + n / 10) * 10 + n % 10
          = acc * (10 ^ L * 10) + (n / 10 * 10 + n % 10) := by ring
        _ = acc * (10 ^ L * 10) + n := by rw [hdm]

theorem spanDigits_eq (A : List Char) (rest : List Char)
    (hA : A.all Char.isDigit = true)
    (hrest : ∀ c, rest.head? = some c → c.isDigit = false) :
    spanDigits (A ++ rest) = (A, rest) := by
  induction A with
  | nil =>
    cases rest with
    | nil => rfl
    | cons c t =>
      have := hrest c rfl
      simp only [List.nil_append, spanDigits, this]
      rfl
  | cons c t ih =>
    simp only [List.all_cons, Bool.and_eq_true] at hA
    simp only [List.cons_append, spanDigits, hA.1, if_true, List.append_eq, ih hA.2]

theorem parseLit_self (lit : List Char) :
    ∀ rest, parseLit lit (lit ++ rest) = some rest := by
  induction lit with
  | nil => intro rest; rfl
  | cons c t ih =>
    intro rest
    simp only [List.cons_append, parseLit, if_pos rfl]
    exact ih rest

theorem parseStrBody_dump (s : List Char) (rest : List Char)
    (hs : ∀ c ∈ s, c ≠ '"') :
    parseStrBody (s ++ '"' :: rest) = some (s, rest) := by
  induction s with
  | nil => rfl
  | cons c t ih =>
    have hc : c ≠ '"' := hs c (by simp)
    simp only [List.cons_append, parseStrBody, if_neg hc, List.append_eq,
      ih fun x hx => hs x (by simp [hx])]
    rfl

theorem wfChar_ne_quote {c : Char} (h : wfChar c = true) : c ≠ '"' := by
  unfold wfChar at h
  simp only [Bool.and_eq_true, decide_eq_true_eq] at h
  simpa using h.1.1.1

theorem parseStr_dump (s : String) (rest : List Char) (h : wfStr s = true) :
    parseStr (strToChars s ++ rest) = some (s, rest) := by
  unfold strToChars parseStr
  simp only [List.cons_append, List.append_assoc, List.singleton_append,
    List.nil_append]
  rw [parseStrBody_dump s.data rest ?hq]
  · simp
  · intro c hc
    unfold wfStr at h
    rw [List.all_eq_true] at h
    exact wfChar_ne_quote (h c hc)

theorem ne_of_isDigit {c : Char} (d : Char) (h : c.isDigit = true)
    (hd : d.toNat < 48 ∨ 57 < d.toNat) : c ≠ d := by
  obtain ⟨h1, h2⟩ := isDigit_toNat_bounds h
  intro he
  subst he
  omega

theorem natToChars_all_digits (n : Nat) : (natToChars n).all Char.isDigit = true :=
  natCharsAux_all_digits (n + 1) n

theorem natToChars_ne_nil (n : Nat) : natToChars n ≠ [] := natCharsAux_ne_nil n n

theorem natToChars_value (n : Nat) : charsToNatAux 0 (natToChars n) = n := by
  have := natCharsAux_value (n + 1) n 0 (by omega)
  simpa using this

theorem parseNum_int (n : Int) (rest : List Char)
    (hrest : ∀ c, rest.head? = some c → c.isDigit = false ∧ c ≠ '.') :
    parseNum (intToChars n ++ rest) = some (.pint n, rest) := by
  have hspan : spanDigits (natToChars n.natAbs ++ rest) = (natToChars n.natAbs, rest) :=
    spanDigits_eq _ _ (natToChars_all_digits _) (fun c hc => (hrest c hc).1)
  cases hD : natToChars n.natAbs with
  | nil => exact absurd hD (natToChars_ne_nil _)
  | cons c0 cs =>
    have hdig : c0.isDigit = true := by
      have := natToChars_all_digits n.natAbs
      rw [hD] at this
      simp only [List.all_cons, Bool.and_eq_true] at this
      exact this.1
    have hc0 : ¬c0 = '-' := ne_of_isDigit '-' hdig (by left; decide)
    have hspan' : spanDigits (c0 :: (cs ++ rest)) = (c0 :: cs, rest) := by
      have h2 := hspan
      rw [hD] at h2
      simpa using h2
    have hval' : charsToNatAux 0 (c0 :: cs) = n.natAbs := by
      have h2 := natToChars_value n.natAbs
      rw [hD] at h2
      exact h2
    by_cases hn : n < 0
    · have hsplit : intToChars n ++ rest = '-' :: (c0 :: (cs ++ rest)) := by
        unfold intToChars
        rw [if_pos hn, hD]
        simp
      rw [hsplit]
      unfold parseNum
      cases rest with
      | nil =>
        have hs2 : spanDigits (c0 :: cs) = (c0 :: cs, []) := by simpa using hspan'
        simp [hs2, hval', -Int.natCast_natAbs]
        omega
      | cons c r2 =>
        have hc : ¬c = '.' := (hrest c rfl).2
        simp [hspan', hc, hval', -Int.natCast_natAbs]
        omega
    · have hsplit : intToChars n ++ rest = c0 :: (cs ++ rest) := by
        unfold intToChars
        rw [if_neg hn, hD]
        simp
      rw [hsplit]
      unfold parseNum
      cases rest with
      | nil =>
        have hs2 : spanDigits (c0 :: cs) = (c0 :: cs, []) := by simpa using hspan'
        simp [hc0, hs2, hval']
        omega
      | cons c r2 =>
        have hc : ¬c = '.' := (hrest c rfl).2
        simp [hc0, hspan', hc, hval']
        omega

theorem charsToNat_zeros (k : Nat) (A : List Char) :
    charsToNatAux 0 (List.replicate k '0' ++ A) = charsToNatAux 0 A := by
  induction k with
  | zero => rfl
  | succ k ih =>
    rw [List.replicate_succ, List.cons_append, charsToNatAux_cons]
    simpa using ih

theorem replicate_zero_digits (k : Nat) :
    (List.replicate k '0').all Char.isDigit = true := by
  simp only [List.all_eq_true, List.mem_replicate]
  intro c hc
  rw [hc.2]
  decide

theorem parseNum_dec (d : DecLit) (rest : List Char) (hf : 1 ≤ d.f)
    (hrest : ∀ c, rest.head? = some c → c.isDigit = false) :
    parseNum (decToChars d ++ rest) = some (.pfloat d, rest) := by
  obtain ⟨m, f⟩ := d
  simp only at hf ⊢
  set A := natToChars m.natAbs with hA
  set padded := List.replicate (f + 1 - A.length) '0' ++ A with hpadded
  have hAlen : 1 ≤ A.length := by
    cases hD : A with
    | nil => exact absurd hD (natToChars_ne_nil _)
    | cons c0 cs => simp [hD]
  have hplen : padded.length = f + 1 - A.length + A.length := by
    simp [hpadded]
  have hLge : f + 1 ≤ padded.length := by omega
  have hpdig : padded.all Char.isDigit = true := by
    rw [hpadded, List.all_append, Bool.and_eq_true]
    exact ⟨replicate_zero_digits _, natToChars_all_digits _⟩
  have hpval : charsToNatAux 0 padded = m.natAbs := by
    rw [hpadded, charsToNat_zeros, hA, natToChars_value]
  set ip := padded.take (padded.length - f) with hip
  set fp := padded.drop (padded.length - f) with hfp
  have hiplen : ip.length = padded.length - f := by
    rw [hip, List.length_take]
    omega
  have hfplen : fp.length = f := by
    rw [hfp, List.length_drop]
    omega
  have hipfp : ip ++ fp = padded := by rw [hip, hfp, List.take_append_drop]
  have hipdig : ip.all Char.isDigit = true := by
    rw [List.all_eq_true]
    intro c hc
    have : c ∈ padded := List.take_subset _ _ hc
    exact (List.all_eq_true.mp hpdig) c this
  have hfpdig : fp.all Char.isDigit = true := by
    rw [List.all_eq_true]
    intro c hc
    have : c ∈ padded := List.drop_subset _ _ hc
    exact (List.all_eq_true.mp hpdig) c this
  have hipne : ip ≠ [] := by
    intro he
    have := hiplen
    rw [he] at this
    simp at this
    omega
  have hfpne : fp ≠ [] := by
    intro he
    have := hfplen
    rw [he] at this
    simp at this
    omega
  have hspan1 : spanDigits (ip ++ '.' :: (fp ++ rest)) = (ip, '.' :: (fp ++ rest)) :=
    spanDigits_eq _ _ hipdig (by intro c hc; cases hc; decide)
  have hspan2 : spanDigits (fp ++ rest) = (fp, rest) :=
    spanDigits_eq _ _ hfpdig hrest
  have hmag : charsToNatAux 0 (ip ++ fp) = m.natAbs := by rw [hipfp, hpval]
  cases hI : ip with
  | nil => exact absurd hI hipne
  | cons i0 is =>
    have hi0dig : i0.isDigit = true := by
      have := hipdig
      rw [hI] at this
      simp only [List.all_cons, Bool.and_eq_true] at this
      exact this.1
    have hi0 : ¬i0 = '-' := ne_of_isDigit '-' hi0dig (by left; decide)
    have hspan1' : spanDigits (i0 :: (is ++ '.' :: (fp ++ rest))) =
        (i0 :: is, '.' :: (fp ++ rest)) := by
      have h2 := hspan1
      rw [hI] at h2
      simpa using h2
    have hmag' : charsToNatAux 0 (i0 :: (is ++ fp)) = m.natAbs := by
      have h2 := hmag
      rw [hI] at h2
      simpa using h2
    by_cases hm : m < 0
    · have hsplit : decToChars ⟨m, f⟩ ++ rest =
          '-' :: (i0 :: (is ++ '.' :: (fp ++ rest))) := by
        unfold decToChars
        simp only [← hA, ← hpadded, ← hip, ← hfp, hI]
        rw [if_pos hm]
        simp
      rw [hsplit]
      unfold parseNum
      simp [hspan1', hspan2, hfpne, hmag', hfplen, -Int.natCast_natAbs]
      omega
    · have hsplit : decToChars ⟨m, f⟩ ++ rest =
          i0 :: (is ++ '.' :: (fp ++ rest)) := by
        unfold decToChars
        simp only [← hA, ← hpadded, ← hip, ← hfp, hI]
        rw [if_neg hm]
        simp
      rw [hsplit]
      unfold parseNum
      simp [hi0, hspan1', hspan2, hfpne, hmag', hfplen, -Int.natCast_natAbs]
      omega

theorem joinSep_cons_of_ne_nil (sep : List Char) (c : List Char)
    (cs : List (List Char)) (h : cs ≠ []) :
    joinSep sep (c :: cs) = c ++ sep ++ joinSep sep cs := by
  cases cs with
  | nil => exact absurd rfl h
  | cons d ds => rfl

theorem joinSep_length_ge (sep : List Char) :
    ∀ chunks : List (List Char), (∀ ch ∈ chunks, 1 ≤ ch.length) →
      chunks.length ≤ (joinSep sep chunks).length := by
  intro chunks
  induction chunks with
  | nil => intro _; simp
  | cons c cs ih =>
    intro h
    cases cs with
    | nil =>
      have := h c (by simp)
      simpa using this
    | cons d ds =>
      rw [joinSep_cons_of_ne_nil sep c (d :: ds) (by simp)]
      have h1 := h c (by simp)
      have h2 := ih fun ch hch => h ch (by simp [hch])
      simp only [List.length_cons] at h2
      simp only [List.length_cons, List.length_append]
      omega

theorem intToChars_ne_nil (n : Int) : 1 ≤ (intToChars n).length := by
  unfold intToChars
  by_cases h : n < 0
  · rw [if_pos h]; simp
  · rw [if_neg h]
    cases hD : natToChars n.natAbs with
    | nil => exact absurd hD (natToChars_ne_nil _)
    | cons c cs => simp

theorem decToChars_ne_nil (d : DecLit) : 1 ≤ (decToChars d).length := by
  unfold decToChars
  by_cases h : d.m < 0 <;> simp [h] <;> omega

theorem toIntList_map_pint (xs : List Int) : toIntList (xs.map .pint) = some xs := by
  induction xs with
  | nil => rfl
  | cons x t ih => simp [toIntList, ih]

theorem toIntList_map_pfloat (d : DecLit) (ds : List DecLit) :
    toIntList ((d :: ds).map .pfloat) = none := rfl

theorem toDecList_map_pfloat (ds : List DecLit) :
    toDecList (ds.map .pfloat) = some ds := by
  induction ds with
  | nil => rfl
  | cons x t ih => simp [toDecList, ih]

theorem parseNumListLoop_ints (rest : List Char) :
    ∀ (xs : List Int) (fuel : Nat), xs ≠ [] → xs.length ≤ fuel →
      parseNumListLoop fuel (joinSep ", ".data (xs.map intToChars) ++ ']' :: rest) =
        some (xs.map .pint, rest) := by
  intro xs
  induction xs with
  | nil => intro fuel h _; exact absurd rfl h
  | cons x t ih =>
    intro fuel _ hlen
    cases fuel with
    | zero => simp at hlen
    | succ fuel =>
      cases t with
      | nil =>
        simp only [List.map_cons, List.map_nil, joinSep, parseNumListLoop]
        rw [parseNum_int x (']' :: rest) (by intro c hc; cases hc; exact ⟨by decide, by decide⟩)]
        rfl
      | cons y ys =>
        rw [List.map_cons, joinSep_cons_of_ne_nil _ _ _ (by simp)]
        simp only [parseNumListLoop, List.append_assoc, List.cons_append,
          List.nil_append]
        have hpn : parseNum (intToChars x ++ (',' :: (' ' :: (joinSep ", ".data
            ((y :: ys).map intToChars) ++ ']' :: rest)))) =
            some (.pint x, ',' :: (' ' :: (joinSep ", ".data
              ((y :: ys).map intToChars) ++ ']' :: rest))) := by
          apply parseNum_int
          intro c hc
          cases hc
          exact ⟨by decide, by decide⟩
        rw [hpn]
        simp only [Option.bind_some]
        have ih2 := ih fuel (by simp) (by simpa using hlen)
        rw [show (", ".data : List Char) = ([',', ' '] : List Char) from rfl] at ih2
        show Option.map (fun q => (PyVal.pint x :: q.1, q.2))
            (parseNumListLoop fuel
              (joinSep [',', ' '] (List.map intToChars (y :: ys)) ++ ']' :: rest)) =
          some (List.map PyVal.pint (x :: y :: ys), rest)
        rw [ih2]
        rfl

theorem decToChars_eq (d : DecLit) :
    decToChars d =
      (if d.m < 0 then ['-'] else []) ++
        (List.replicate (d.f + 1 - (natToChars d.m.natAbs).length) '0' ++
            natToChars d.m.natAbs).take
          ((List.replicate (d.f + 1 - (natToChars d.m.natAbs).length) '0' ++
              natToChars d.m.natAbs).length - d.f) ++
        '.' :: (List.replicate (d.f + 1 - (natToChars d.m.natAbs).length) '0' ++
            natToChars d.m.natAbs).drop
          ((List.replicate (d.f + 1 - (natToChars d.m.natAbs).length) '0' ++
              natToChars d.m.natAbs).length - d.f) := by
  unfold decToChars
  rfl

theorem decToChars_head (d : DecLit) :
    ∃ c cs, decToChars d = c :: cs ∧ (c = '-' ∨ c.isDigit = true) := by
  rw [decToChars_eq]
  set P := List.replicate (d.f + 1 - (natToChars d.m.natAbs).length) '0' ++
    natToChars d.m.natAbs with hP
  by_cases h : d.m < 0
  · rw [if_pos h]
    refine ⟨'-', P.take (P.length - d.f) ++ '.' :: P.drop (P.length - d.f),
      ?_, Or.inl rfl⟩
    simp
  · rw [if_neg h]
    have hAlen : 1 ≤ (natToChars d.m.natAbs).length := by
      cases hD : natToChars d.m.natAbs with
      | nil => exact absurd hD (natToChars_ne_nil _)
      | cons c0 cs => simp [hD]
    have hPlen : d.f + 1 ≤ P.length := by
      rw [hP]
      simp only [List.length_append, List.length_replicate]
      omega
    have htklen : (P.take (P.length - d.f)).length = P.length - d.f := by
      rw [List.length_take]
      omega
    have hPdig : P.all Char.isDigit = true := by
      rw [hP, List.all_append, Bool.and_eq_true]
      exact ⟨replicate_zero_digits _, natToChars_all_digits _⟩
    cases htk : P.take (P.length - d.f) with
    | nil =>
      exfalso
      rw [htk] at htklen
      simp at htklen
      omega
    | cons c0 cs =>
      refine ⟨c0, cs ++ '.' :: P.drop (P.length - d.f), by simp, Or.inr ?_⟩
      have hc0mem : c0 ∈ P := by
        apply List.take_subset (P.length - d.f)
        rw [htk]
        simp
      exact (List.all_eq_true.mp hPdig) c0 hc0mem

theorem parseNumListLoop_decs (rest : List Char) :
    ∀ (ds : List DecLit) (fuel : Nat), ds ≠ [] → ds.length ≤ fuel →
      (∀ d ∈ ds, 1 ≤ d.f) →
      parseNumListLoop fuel (joinSep ", ".data (ds.map decToChars) ++ ']' :: rest) =
        some (ds.map .pfloat, rest) := by
  intro ds
  induction ds with
  | nil => intro fuel h _ _; exact absurd rfl h
  | cons x t ih =>
    intro fuel _ hlen hwf
    cases fuel with
    | zero => simp at hlen
    | succ fuel =>
      cases t with
      | nil =>
        simp only [List.map_cons, List.map_nil, joinSep, parseNumListLoop]
        rw [parseNum_dec x (']' :: rest) (hwf x (by simp))
          (by intro c hc; cases hc; decide)]
        rfl
      | cons y ys =>
        rw [List.map_cons, joinSep_cons_of_ne_nil _ _ _ (by simp)]
        simp only [parseNumListLoop, List.append_assoc, List.cons_append,
          List.nil_append]
        have hpn : parseNum (decToChars x ++ ',' :: ' ' :: (joinSep ", ".data
            ((y :: ys).map decToChars) ++ ']' :: rest)) =
            some (.pfloat x, ',' :: ' ' :: (joinSep ", ".data
              ((y :: ys).map decToChars) ++ ']' :: rest)) := by
          apply parseNum_dec x _ (hwf x (by simp))
          intro c hc
          cases hc
          decide
        rw [hpn]
        simp only [Option.bind_some]
        have ih2 := ih fuel (by simp) (by simpa using hlen)
          (fun d hd => hwf d (by simp [hd]))
        rw [show (", ".data : List Char) = ([',', ' '] : List Char) from rfl] at ih2
        show Option.map (fun q => (PyVal.pfloat x :: q.1, q.2))
            (parseNumListLoop fuel
              (joinSep [',', ' '] (List.map decToChars (y :: ys)) ++ ']' :: rest)) =
          some (List.map PyVal.pfloat (x :: y :: ys), rest)
        rw [ih2]
        rfl

theorem intToChars_head (n : Int) :
    ∃ c cs, intToChars n = c :: cs ∧ (c = '-' ∨ c.isDigit = true) := by
  unfold intToChars
  by_cases h : n < 0
  · rw [if_pos h]
    exact ⟨'-', _, rfl, Or.inl rfl⟩
  · rw [if_neg h]
    cases hD : natToChars n.natAbs with
    | nil => exact absurd hD (natToChars_ne_nil _)
    | cons c0 cs =>
      refine ⟨c0, cs, rfl, Or.inr ?_⟩
      have hall := natToChars_all_digits n.natAbs
      rw [hD] at hall
      simp only [List.all_cons, Bool.and_eq_true] at hall
      exact hall.1

theorem joinSep_first_chunk (sep : List Char) (c : List Char)
    (cs : List (List Char)) : ∃ R, joinSep sep (c :: cs) = c ++ R := by
  cases cs with
  | nil => exact ⟨[], by simp [joinSep]⟩
  | cons d ds =>
    refine ⟨sep ++ joinSep sep (d :: ds), ?_⟩
    rw [joinSep_cons_of_ne_nil _ _ _ (by simp)]
    simp

theorem parseArr_ints (xs : List Int) (rest : List Char) :
    parseArr (valToChars (.pintarr xs) ++ rest) = some (.pintarr xs, rest) := by
  cases xs with
  | nil => rfl
  | cons x t =>
    obtain ⟨c0, cs0, hx, hc0d⟩ := intToChars_head x
    obtain ⟨R, hR⟩ := joinSep_first_chunk ", ".data (intToChars x) (t.map intToChars)
    have hc0 : ¬c0 = ']' := by
      rcases hc0d with rfl | hdig
      · decide
      · exact ne_of_isDigit ']' hdig (by right; decide)
    have hJ : joinSep ", ".data ((x :: t).map intToChars) = c0 :: (cs0 ++ R) := by
      rw [List.map_cons, hR, hx]
      simp
    have hlb : (x :: t).length ≤ (joinSep ", ".data ((x :: t).map intToChars)).length := by
      rw [← List.length_map (x :: t) intToChars]
      apply joinSep_length_ge
      intro ch hch
      obtain ⟨n, _, rfl⟩ := List.mem_map.mp hch
      exact intToChars_ne_nil n
    rw [hJ] at hlb
    simp only [List.length_cons, List.length_append] at hlb
    have hloop := parseNumListLoop_ints rest (x :: t)
      ((c0 :: (cs0 ++ (R ++ ']' :: rest))).length) (by simp) ?hfuel
    case hfuel =>
      simp only [List.length_cons, List.length_append]
      omega
    rw [hJ] at hloop
    show parseArr ('[' :: (joinSep ", ".data ((x :: t).map intToChars) ++ [']']) ++ rest) = _
    rw [hJ]
    simp only [List.cons_append, List.append_assoc, List.singleton_append,
      List.nil_append]
    unfold parseArr
    simp only [hc0, if_false]
    have hloop2 : parseNumListLoop ((c0 :: (cs0 ++ (R ++ ']' :: rest))).length)
        (c0 :: (cs0 ++ (R ++ ']' :: rest))) = some ((x :: t).map .pint, rest) := by
      have h2 := hloop
      simpa using h2
    rw [hloop2]
    show (match toIntList ((x :: t).map .pint) with
      | some xs => some (PyVal.pintarr xs, rest)
      | none =>
        match toDecList ((x :: t).map .pint) with
        | some ds => some (PyVal.pfloatarr ds, rest)
        | none => none) = some (PyVal.pintarr (x :: t), rest)
    rw [toIntList_map_pint]

theorem parseArr_decs (ds : List DecLit) (rest : List Char) (hne : ds ≠ [])
    (hwf : ∀ d ∈ ds, 1 ≤ d.f) :
    parseArr (valToChars (.pfloatarr ds) ++ rest) = some (.pfloatarr ds, rest) := by
  cases ds with
  | nil => exact absurd rfl hne
  | cons x t =>
    obtain ⟨c0, cs0, hx, hc0d⟩ := decToChars_head x
    obtain ⟨R, hR⟩ := joinSep_first_chunk ", ".data (decToChars x) (t.map decToChars)
    have hc0 : ¬c0 = ']' := by
      rcases hc0d with rfl | hdig
      · decide
      · exact ne_of_isDigit ']' hdig (by right; decide)
    have hJ : joinSep ", ".data ((x :: t).map decToChars) = c0 :: (cs0 ++ R) := by
      rw [List.map_cons, hR, hx]
      simp
    have hlb : (x :: t).length ≤ (joinSep ", ".data ((x :: t).map decToChars)).length := by
      rw [← List.length_map (x :: t) decToChars]
      apply joinSep_length_ge
      intro ch hch
      obtain ⟨d, _, rfl⟩ := List.mem_map.mp hch
      exact decToChars_ne_nil d
    rw [hJ] at hlb
    simp only [List.length_cons, List.length_append] at hlb
    have hloop := parseNumListLoop_decs rest (x :: t)
      ((c0 :: (cs0 ++ (R ++ ']' :: rest))).length) (by simp) ?hfuel hwf
    case hfuel =>
      simp only [List.length_cons, List.length_append]
      omega
    rw [hJ] at hloop
    show parseArr ('[' :: (joinSep ", ".data ((x :: t).map decToChars) ++ [']']) ++ rest) = _
    rw [hJ]
    simp only [List.cons_append, List.append_assoc, List.singleton_append,
      List.nil_append]
    unfold parseArr
    simp only [hc0, if_false]
    have hloop2 : parseNumListLoop ((c0 :: (cs0 ++ (R ++ ']' :: rest))).length)
        (c0 :: (cs0 ++ (R ++ ']' :: rest))) = some ((x :: t).map .pfloat, rest) := by
      have h2 := hloop
      simpa using h2
    rw [hloop2]
    show (match toIntList ((x :: t).map .pfloat) with
      | some xs => some (PyVal.pintarr xs, rest)
      | none =>
        match toDecList ((x :: t).map .pfloat) with
        | some ds2 => some (PyVal.pfloatarr ds2, rest)
        | none => none) = some (PyVal.pfloatarr (x :: t), rest)
    rw [toIntList_map_pfloat, toDecList_map_pfloat]

theorem strToChars_ne_nil (s : String) : 1 ≤ (strToChars s).length := by
  unfold strToChars
  simp

theorem parseStrListLoop_dump (rest : List Char) :
    ∀ (ss : List String) (fuel : Nat), ss ≠ [] → ss.length ≤ fuel →
      (∀ s ∈ ss, wfStr s = true) →
      parseStrListLoop fuel (joinSep ", ".data (ss.map strToChars) ++ ']' :: rest) =
        some (ss, rest) := by
  intro ss
  induction ss with
  | nil => intro fuel h _ _; exact absurd rfl h
  | cons x t ih =>
    intro fuel _ hlen hwf
    cases fuel with
    | zero => simp at hlen
    | succ fuel =>
      cases t with
      | nil =>
        simp only [List.map_cons, List.map_nil, joinSep, parseStrListLoop]
        rw [parseStr_dump x (']' :: rest) (hwf x (by simp))]
        rfl
      | cons y ys =>
        rw [List.map_cons, joinSep_cons_of_ne_nil _ _ _ (by simp)]
        simp only [parseStrListLoop, List.append_assoc, List.cons_append,
          List.nil_append]
        rw [parseStr_dump x _ (hwf x (by simp))]
        have ih2 := ih fuel (by simp) (by simpa using hlen)
          (fun s hs => hwf s (by simp [hs]))
        rw [show (", ".data : List Char) = ([',', ' '] : List Char) from rfl] at ih2
        show Option.map (fun q => (x :: q.1, q.2))
            (parseStrListLoop fuel
              (joinSep [',', ' '] (List.map strToChars (y :: ys)) ++ ']' :: rest)) =
          some (x :: y :: ys, rest)
        rw [ih2]
        rfl

theorem parseStrList_dump (ss : List String) (rest : List Char)
    (hwf : ∀ s ∈ ss, wfStr s = true) :
    parseStrList (strListToChars ss ++ rest) = some (ss, rest) := by
  cases ss with
  | nil => rfl
  | cons x t =>
    obtain ⟨R, hR⟩ := joinSep_first_chunk ", ".data (strToChars x) (t.map strToChars)
    have hJ : joinSep ", ".data ((x :: t).map strToChars) =
        '"' :: ((x.data ++ ['"']) ++ R) := by
      rw [List.map_cons, hR]
      unfold strToChars
      simp
    have hlb : (x :: t).length ≤
        (joinSep ", ".data ((x :: t).map strToChars)).length := by
      rw [← List.length_map (x :: t) strToChars]
      apply joinSep_length_ge
      intro ch hch
      obtain ⟨s, _, rfl⟩ := List.mem_map.mp hch
      exact strToChars_ne_nil s
    rw [hJ] at hlb
    simp only [List.length_cons, List.length_append] at hlb
    have hloop := parseStrListLoop_dump rest (x :: t)
      (('"' :: ((x.data ++ ['"']) ++ (R ++ ']' :: rest))).length) (by simp) ?hfuel hwf
    case hfuel =>
      simp only [List.length_cons, List.length_append]
      omega
    rw [hJ] at hloop
    show parseStrList ('[' :: (joinSep ", ".data ((x :: t).map strToChars) ++ [']']) ++ rest) = _
    rw [hJ]
    simp only [List.cons_append, List.append_assoc, List.singleton_append,
      List.nil_append]
    unfold parseStrList
    have hq : ¬('"' : Char) = ']' := by decide
    simp only [hq, if_false]
    simpa only [List.append_assoc, List.singleton_append, List.cons_append] using hloop

theorem parseVal_dump (v : PyVal) (rest : List Char) (hwf : wfPyVal v = true)
    (hrest : ∀ c, rest.head? = some c → c.isDigit = false ∧ c ≠ '.') :
    parseVal (valToChars v ++ rest) = some (v, rest) := by
  cases v with
  | pstr s =>
    show parseVal (('"' :: (s.data ++ ['"'])) ++ rest) = _
    simp only [List.cons_append, parseVal, if_pos rfl]
    have := parseStr_dump s rest (by simpa [wfPyVal] using hwf)
    unfold strToChars at this
    simp only [List.cons_append, List.append_assoc, List.singleton_append,
      List.nil_append] at this ⊢
    rw [this]
    rfl
  | pbool b => cases b <;> rfl
  | pint n =>
    obtain ⟨c0, cs0, hx, hc0d⟩ := intToChars_head n
    have hne : ¬c0 = '"' ∧ ¬c0 = 't' ∧ ¬c0 = 'f' ∧ ¬c0 = '[' := by
      rcases hc0d with rfl | hdig
      · exact ⟨by decide, by decide, by decide, by decide⟩
      · exact ⟨ne_of_isDigit '"' hdig (by left; decide),
          ne_of_isDigit 't' hdig (by right; decide),
          ne_of_isDigit 'f' hdig (by right; decide),
          ne_of_isDigit '[' hdig (by right; decide)⟩
    show parseVal (intToChars n ++ rest) = _
    rw [hx]
    simp only [List.cons_append, parseVal, hne.1, hne.2.1, hne.2.2.1, hne.2.2.2,
      if_false]
    rw [← List.cons_append, ← hx, parseNum_int n rest hrest]
  | pfloat d =>
    obtain ⟨c0, cs0, hx, hc0d⟩ := decToChars_head d
    have hne : ¬c0 = '"' ∧ ¬c0 = 't' ∧ ¬c0 = 'f' ∧ ¬c0 = '[' := by
      rcases hc0d with rfl | hdig
      · exact ⟨by decide, by decide, by decide, by decide⟩
      · exact ⟨ne_of_isDigit '"' hdig (by left; decide),
          ne_of_isDigit 't' hdig (by right; decide),
          ne_of_isDigit 'f' hdig (by right; decide),
          ne_of_isDigit '[' hdig (by right; decide)⟩
    show parseVal (decToChars d ++ rest) = _
    rw [hx]
    simp only [List.cons_append, parseVal, hne.1, hne.2.1, hne.2.2.1, hne.2.2.2,
      if_false]
    rw [← List.cons_append, ← hx,
      parseNum_dec d rest (by simpa [wfPyVal] using hwf) (fun c hc => (hrest c hc).1)]
  | pintarr xs =>
    cases xs with
    | nil => rfl
    | cons x t =>
      have harr := parseArr_ints (x :: t) rest
      show parseVal ('[' :: ((joinSep ", ".data ((x :: t).map intToChars) ++ [']']) ++ rest)) = _
      simp only [parseVal]
      norm_num
      rw [if_neg (by decide : ¬('[' : Char) = '"'), if_neg (by decide : ¬('[' : Char) = 't'),
        if_neg (by decide : ¬('[' : Char) = 'f')]
      simp only [valToChars, List.map_cons, List.cons_append, List.append_assoc,
        List.singleton_append] at harr
      simpa only [List.nil_append] using harr
  | pfloatarr ds =>
    have hwf2 : ds ≠ [] ∧ ∀ d ∈ ds, 1 ≤ d.f := by
      unfold wfPyVal at hwf
      simp only [Bool.and_eq_true] at hwf
      constructor
      · intro he
        rw [he] at hwf
        simp at hwf
      · intro d hd
        have := hwf.2
        rw [List.all_eq_true] at this
        simpa using this d hd
    cases ds with
    | nil => exact absurd rfl hwf2.1
    | cons x t =>
      have harr := parseArr_decs (x :: t) rest (by simp) hwf2.2
      show parseVal ('[' :: ((joinSep ", ".data ((x :: t).map decToChars) ++ [']']) ++ rest)) = _
      simp only [parseVal]
      norm_num
      rw [if_neg (by decide : ¬('[' : Char) = '"'), if_neg (by decide : ¬('[' : Char) = 't'),
        if_neg (by decide : ¬('[' : Char) = 'f')]
      simp only [valToChars, List.map_cons, List.cons_append, List.append_assoc,
        List.singleton_append] at harr
      simpa only [List.nil_append] using harr

theorem parseTVar_dump (v : TVar) (rest : List Char) (hwf : wfTVar v = true) :
    parseTVar (tvarToChars v ++ rest) = some (v, rest) := by
  obtain ⟨ty, df, desc, opts⟩ := v
  simp only [wfTVar, Bool.and_eq_true] at hwf
  obtain ⟨⟨⟨hty, hdf⟩, hdesc⟩, hopts⟩ := hwf
  cases desc with
  | none =>
    cases opts with
    | none =>
      show parseTVar ("\x7b\"type\": ".data ++ strToChars ty ++ ", \"default\": ".data ++
        valToChars df ++ [] ++ [] ++ ['}'] ++ rest) = _
      simp only [List.append_nil, List.append_assoc, List.singleton_append]
      unfold parseTVar
      rw [parseLit_self]
      simp only [Option.bind_eq_bind, Option.some_bind]
      rw [parseStr_dump ty _ hty]
      simp only [Option.bind_eq_bind, Option.some_bind]
      rw [parseLit_self]
      simp only [Option.bind_eq_bind, Option.some_bind]
      rw [parseVal_dump df ('}' :: rest) hdf ?hr1]
      case hr1 =>
        intro c hc
        obtain rfl : '}' = c := Option.some.inj hc
        exact ⟨by decide, by decide⟩
      simp only [Option.bind_eq_bind, Option.some_bind]
      rfl
    | some os =>
      have hos : ∀ s ∈ os, wfStr s = true := by
        intro s hs
        rw [List.all_eq_true] at hopts
        simpa using hopts s hs
      show parseTVar ("\x7b\"type\": ".data ++ strToChars ty ++ ", \"default\": ".data ++
        valToChars df ++ [] ++ (", \"options\": ".data ++ strListToChars os) ++
        ['}'] ++ rest) = _
      simp only [List.append_nil, List.append_assoc, List.singleton_append]
      unfold parseTVar
      rw [parseLit_self]
      simp only [Option.bind_eq_bind, Option.some_bind]
      rw [parseStr_dump ty _ hty]
      simp only [Option.bind_eq_bind, Option.some_bind]
      rw [parseLit_self]
      simp only [Option.bind_eq_bind, Option.some_bind]
      rw [parseVal_dump df _ hdf ?hr2]
      case hr2 =>
        intro c hc
        obtain rfl : ',' = c := Option.some.inj hc
        exact ⟨by decide, by decide⟩
      simp only [Option.bind_eq_bind, Option.some_bind]
      rw [show parseLit ", \"description\": ".data (", \"options\": ".data ++
        (strListToChars os ++ ('}' :: rest))) = none from rfl]
      dsimp only
      rw [parseLit_self]
      dsimp only
      rw [parseStrList_dump os ('}' :: rest) hos]
      simp only [Option.map_some', Option.bind_eq_bind, Option.some_bind]
  | some d =>
    have hd : wfStr d = true := by simpa using hdesc
    cases opts with
    | none =>
      show parseTVar ("\x7b\"type\": ".data ++ strToChars ty ++ ", \"default\": ".data ++
        valToChars df ++ (", \"description\": ".data ++ strToChars d) ++ [] ++
        ['}'] ++ rest) = _
      simp only [List.append_nil, List.append_assoc, List.singleton_append]
      unfold parseTVar
      rw [parseLit_self]
      simp only [Option.bind_eq_bind, Option.some_bind]
      rw [parseStr_dump ty _ hty]
      simp only [Option.bind_eq_bind, Option.some_bind]
      rw [parseLit_self]
      simp only [Option.bind_eq_bind, Option.some_bind]
      rw [parseVal_dump df _ hdf ?hr3]
      case hr3 =>
        intro c hc
        obtain rfl : ',' = c := Option.some.inj hc
        exact ⟨by decide, by decide⟩
      simp only [Option.bind_eq_bind, Option.some_bind]
      rw [parseLit_self]
      dsimp only
      rw [parseStr_dump d ('}' :: rest) hd]
      simp only [Option.map_some', Option.bind_eq_bind, Option.some_bind]
      rfl
    | some os =>
      have hos : ∀ s ∈ os, wfStr s = true := by
        intro s hs
        rw [List.all_eq_true] at hopts
        simpa using hopts s hs
      show parseTVar ("\x7b\"type\": ".data ++ strToChars ty ++ ", \"default\": ".data ++
        valToChars df ++ (", \"description\": ".data ++ strToChars d) ++
        (", \"options\": ".data ++ strListToChars os) ++ ['}'] ++ rest) = _
      simp only [List.append_nil, List.append_assoc, List.singleton_append]
      unfold parseTVar
      rw [parseLit_self]
      simp only [Option.bind_eq_bind, Option.some_bind]
      rw [parseStr_dump ty _ hty]
      simp only [Option.bind_eq_bind, Option.some_bind]
      rw [parseLit_self]
      simp only [Option.bind_eq_bind, Option.some_bind]
      rw [parseVal_dump df _ hdf ?hr4]
      case hr4 =>
        intro c hc
        obtain rfl : ',' = c := Option.some.inj hc
        exact ⟨by decide, by decide⟩
      simp only [Option.bind_eq_bind, Option.some_bind]
      rw [parseLit_self]
      dsimp only
      rw [parseStr_dump d _ hd]
      simp only [Option.map_some', Option.bind_eq_bind, Option.some_bind]
      rw [parseLit_self]
      dsimp only
      rw [parseStrList_dump os ('}' :: rest) hos]
      simp only [Option.map_some', Option.bind_eq_bind, Option.some_bind]

theorem varChunk_ne_nil (kv : String × TVar) :
    1 ≤ (strToChars kv.1 ++ ": ".data ++ tvarToChars kv.2).length := by
  simp only [List.length_append]
  have := strToChars_ne_nil kv.1
  omega

theorem parseLit_colon (X : List Char) :
    parseLit [':', ' '] (':' :: ' ' :: X) = some X := rfl

theorem parseVarsLoop_dump (rest : List Char) :
    ∀ (l : List (String × TVar)) (fuel : Nat), l ≠ [] → l.length ≤ fuel →
      (∀ kv ∈ l, wfStr kv.1 = true ∧ wfTVar kv.2 = true) →
      parseVarsLoop fuel (varEntriesToChars l ++ '}' :: rest) = some (l, rest) := by
  intro l
  induction l with
  | nil => intro fuel h _ _; exact absurd rfl h
  | cons x t ih =>
    obtain ⟨k, v⟩ := x
    intro fuel _ hlen hwf
    cases fuel with
    | zero => simp at hlen
    | succ fuel =>
      cases t with
      | nil =>
        simp only [varEntriesToChars, List.map_cons, List.map_nil, joinSep,
          parseVarsLoop, List.append_assoc]
        rw [parseStr_dump k _ (hwf (k, v) (by simp)).1]
        simp only [Option.bind_eq_bind, Option.some_bind]
        rw [parseLit_self]
        simp only [Option.bind_eq_bind, Option.some_bind]
        rw [parseTVar_dump v ('}' :: rest) (hwf (k, v) (by simp)).2]
        simp only [Option.bind_eq_bind, Option.some_bind]
      | cons y ys =>
        simp only [varEntriesToChars, List.map_cons]
        rw [joinSep_cons_of_ne_nil _ _ _ (by simp)]
        simp only [parseVarsLoop, List.append_assoc, List.cons_append,
          List.nil_append]
        rw [parseStr_dump k _ (hwf (k, v) (by simp)).1]
        simp only [Option.bind_eq_bind, Option.some_bind]
        rw [parseLit_colon]
        simp only [Option.bind_eq_bind, Option.some_bind]
        rw [parseTVar_dump v _ (hwf (k, v) (by simp)).2]
        simp only [Option.bind_eq_bind, Option.some_bind]
        have ih2 := ih fuel (by simp) (by simpa using hlen)
          (fun kv hkv => hwf kv (by simp [hkv]))
        simp only [varEntriesToChars, List.map_cons] at ih2
        simp only [List.append_assoc, List.cons_append, List.nil_append] at ih2
        show Option.map (fun q => ((k, v) :: q.1, q.2))
            (parseVarsLoop fuel
              (joinSep [',', ' ']
                ((strToChars y.1 ++ ':' :: ' ' :: tvarToChars y.2) ::
                  List.map (fun kv => strToChars kv.1 ++ ':' :: ' ' :: tvarToChars kv.2) ys) ++
                '}' :: rest)) =
          some ((k, v) :: y :: ys, rest)
        rw [ih2]
        rfl

theorem parseVarsDict_dump (l : List (String × TVar)) (rest : List Char)
    (hwf : ∀ kv ∈ l, wfStr kv.1 = true ∧ wfTVar kv.2 = true) :
    parseVarsDict (varsToChars l ++ rest) = some (l, rest) := by
  cases l with
  | nil => rfl
  | cons x t =>
    obtain ⟨R, hR⟩ := joinSep_first_chunk ", ".data
      (strToChars x.1 ++ ": ".data ++ tvarToChars x.2)
      (t.map fun kv => strToChars kv.1 ++ ": ".data ++ tvarToChars kv.2)
    have hJ : varEntriesToChars (x :: t) =
        '"' :: ((x.1.data ++ ['"']) ++ ((": ".data ++ tvarToChars x.2) ++ R)) := by
      rw [varEntriesToChars, List.map_cons, hR]
      unfold strToChars
      simp
    have hlb : (x :: t).length ≤ (varEntriesToChars (x :: t)).length := by
      rw [varEntriesToChars, ← List.length_map (x :: t)
        (fun kv => strToChars kv.1 ++ ": ".data ++ tvarToChars kv.2)]
      apply joinSep_length_ge
      intro ch hch
      obtain ⟨kv, _, rfl⟩ := List.mem_map.mp hch
      exact varChunk_ne_nil kv
    rw [hJ] at hlb
    simp only [List.length_cons, List.length_append] at hlb
    have hloop := parseVarsLoop_dump rest (x :: t)
      (('"' :: ((x.1.data ++ ['"']) ++ ((": ".data ++ tvarToChars x.2) ++ (R ++ '}' :: rest)))).length)
      (by simp) ?hfuel hwf
    case hfuel =>
      simp only [List.length_cons, List.length_append]
      omega
    rw [hJ] at hloop
    show parseVarsDict ('{' :: (varEntriesToChars (x :: t) ++ ['}']) ++ rest) = _
    rw [hJ]
    simp only [List.cons_append, List.append_assoc, List.singleton_append,
      List.nil_append]
    unfold parseVarsDict
    have hq : ¬('"' : Char) = '}' := by decide
    simp only [hq, if_false]
    simpa only [List.append_assoc, List.singleton_append, List.cons_append] using hloop

theorem parseClassVal_dump (cv : ClassVal) (rest : List Char)
    (hwf : wfClassVal cv = true) :
    parseClassVal (classValToChars cv ++ rest) = some (cv, rest) := by
  cases cv with
  | vstr s =>
    show parseClassVal (('"' :: (s.data ++ ['"'])) ++ rest) = _
    simp only [List.cons_append, parseClassVal]
    have := parseStr_dump s rest (by simpa [wfClassVal] using hwf)
    unfold strToChars at this
    simp only [List.cons_append, List.append_assoc, List.singleton_append,
      List.nil_append] at this ⊢
    rw [this]
    rfl
  | vcls uid vs =>
    simp only [wfClassVal, Bool.and_eq_true] at hwf
    have hvs : ∀ kv ∈ vs, wfStr kv.1 = true ∧ wfTVar kv.2 = true := by
      intro kv hkv
      have := hwf.2
      rw [List.all_eq_true] at this
      simpa using this kv hkv
    cases uid with
    | none =>
      show parseClassVal ('{' :: (("\"variables\": ".data ++ varsToChars vs ++ ['}']) ++ rest)) = _
      simp only [parseClassVal, List.append_assoc, List.singleton_append]
      rw [show parseLit "\"uid\": ".data ("\"variables\": ".data ++
        (varsToChars vs ++ '}' :: rest)) = none from rfl]
      dsimp only
      rw [parseLit_self]
      simp only [Option.bind_eq_bind, Option.some_bind]
      rw [parseVarsDict_dump vs ('}' :: rest) hvs]
      simp only [Option.bind_eq_bind, Option.some_bind]
    | some u =>
      have hu : wfStr u = true := by simpa using hwf.1
      show parseClassVal ('{' :: ((("\"uid\": ".data ++ strToChars u ++ ", ".data) ++
        "\"variables\": ".data ++ varsToChars vs ++ ['}']) ++ rest)) = _
      simp only [parseClassVal, List.append_assoc, List.singleton_append]
      rw [parseLit_self]
      dsimp only
      rw [parseStr_dump u _ hu]
      simp only [Option.bind_eq_bind, Option.some_bind]
      rw [show parseLit ", \"variables\": ".data (", ".data ++
        ("\"variables\": ".data ++ (varsToChars vs ++ '}' :: rest))) =
        some (varsToChars vs ++ '}' :: rest) from rfl]
      simp only [Option.bind_eq_bind, Option.some_bind]
      rw [parseVarsDict_dump vs ('}' :: rest) hvs]
      simp only [Option.bind_eq_bind, Option.some_bind]

theorem classChunk_ne_nil (kv : String × ClassVal) :
    1 ≤ (strToChars kv.1 ++ ": ".data ++ classValToChars kv.2).length := by
  simp only [List.length_append]
  have := strToChars_ne_nil kv.1
  omega

theorem parseTemplateLoop_dump (rest : List Char) :
    ∀ (l : TemplateDoc) (fuel : Nat), l ≠ [] → l.length ≤ fuel →
      (∀ kv ∈ l, wfStr kv.1 = true ∧ wfClassVal kv.2 = true) →
      parseTemplateLoop fuel (tmplEntriesToChars l ++ '}' :: rest) = some (l, rest) := by
  intro l
  induction l with
  | nil => intro fuel h _ _; exact absurd rfl h
  | cons x t ih =>
    obtain ⟨k, v⟩ := x
    intro fuel _ hlen hwf
    cases fuel with
    | zero => simp at hlen
    | succ fuel =>
      cases t with
      | nil =>
        simp only [tmplEntriesToChars, List.map_cons, List.map_nil, joinSep,
          parseTemplateLoop, List.append_assoc]
        rw [parseStr_dump k _ (hwf (k, v) (by simp)).1]
        simp only [Option.bind_eq_bind, Option.some_bind]
        rw [parseLit_self]
        simp only [Option.bind_eq_bind, Option.some_bind]
        rw [parseClassVal_dump v ('}' :: rest) (hwf (k, v) (by simp)).2]
        simp only [Option.bind_eq_bind, Option.some_bind]
      | cons y ys =>
        simp only [tmplEntriesToChars, List.map_cons]
        rw [joinSep_cons_of_ne_nil _ _ _ (by simp)]
        simp only [parseTemplateLoop, List.append_assoc, List.cons_append,
          List.nil_append]
        rw [parseStr_dump k _ (hwf (k, v) (by simp)).1]
        simp only [Option.bind_eq_bind, Option.some_bind]
        rw [parseLit_colon]
        simp only [Option.bind_eq_bind, Option.some_bind]
        rw [parseClassVal_dump v _ (hwf (k, v) (by simp)).2]
        simp only [Option.bind_eq_bind, Option.some_bind]
        have ih2 := ih fuel (by simp) (by simpa using hlen)
          (fun kv hkv => hwf kv (by simp [hkv]))
        simp only [tmplEntriesToChars, List.map_cons] at ih2
        simp only [List.append_assoc, List.cons_append, List.nil_append] at ih2
        show Option.map (fun q => ((k, v) :: q.1, q.2))
            (parseTemplateLoop fuel
              (joinSep [',', ' ']
                ((strToChars y.1 ++ ':' :: ' ' :: classValToChars y.2) ::
                  List.map (fun kv => strToChars kv.1 ++ ':' :: ' ' :: classValToChars kv.2) ys) ++
                '}' :: rest)) =
          some ((k, v) :: y :: ys, rest)
        rw [ih2]
        rfl

theorem parseTemplateDict_dump (l : TemplateDoc) (rest : List Char)
    (hwf : ∀ kv ∈ l, wfStr kv.1 = true ∧ wfClassVal kv.2 = true) :
    parseTemplateDict (('{' :: tmplEntriesToChars l ++ ['}']) ++ rest) = some (l, rest) := by
  cases l with
  | nil => rfl
  | cons x t =>
    obtain ⟨R, hR⟩ := joinSep_first_chunk ", ".data
      (strToChars x.1 ++ ": ".data ++ classValToChars x.2)
      (t.map fun kv => strToChars kv.1 ++ ": ".data ++ classValToChars kv.2)
    have hJ : tmplEntriesToChars (x :: t) =
        '"' :: ((x.1.data ++ ['"']) ++ ((": ".data ++ classValToChars x.2) ++ R)) := by
      rw [tmplEntriesToChars, List.map_cons, hR]
      unfold strToChars
      simp
    have hlb : (x :: t).length ≤ (tmplEntriesToChars (x :: t)).length := by
      rw [tmplEntriesToChars, ← List.length_map (x :: t)
        (fun kv => strToChars kv.1 ++ ": ".data ++ classValToChars kv.2)]
      apply joinSep_length_ge
      intro ch hch
      obtain ⟨kv, _, rfl⟩ := List.mem_map.mp hch
      exact classChunk_ne_nil kv
    rw [hJ] at hlb
    simp only [List.length_cons, List.length_append] at hlb
    have hloop := parseTemplateLoop_dump rest (x :: t)
      (('"' :: ((x.1.data ++ ['"']) ++ ((": ".data ++ classValToChars x.2) ++ (R ++ '}' :: rest)))).length)
      (by simp) ?hfuel hwf
    case hfuel =>
      simp only [List.length_cons, List.length_append]
      omega
    rw [hJ] at hloop
    show parseTemplateDict ('{' :: (tmplEntriesToChars (x :: t) ++ ['}']) ++ rest) = _
    rw [hJ]
    simp only [List.cons_append, List.append_assoc, List.singleton_append,
      List.nil_append]
    unfold parseTemplateDict
    have hq : ¬('"' : Char) = '}' := by decide
    simp only [hq, if_false]
    simpa only [List.append_assoc, List.singleton_append, List.cons_append] using hloop

theorem pyJsonLoads_dumps (t : TemplateDoc) (hwf : wfTemplateDoc t = true) :
    pyJsonLoads (pyJsonDumps t) = some t := by
  have hwf2 : ∀ kv ∈ t, wfStr kv.1 = true ∧ wfClassVal kv.2 = true := by
    intro kv hkv
    unfold wfTemplateDoc at hwf
    rw [List.all_eq_true] at hwf
    simpa using hwf kv hkv
  have hd := parseTemplateDict_dump t [] hwf2
  unfold pyJsonLoads pyJsonDumps
  simp only [List.append_nil] at hd ⊢
  rw [hd]

/-- C7: for every well-formed template document, restoring the entity
template from its persisted snapshot (`EntityTemplate.init_dict` after
`EntityTemplate.reset`, i.e. `json.loads` of the `json.dumps` mirror
string) reproduces the template dict exactly: the same class keys, the
same variable keys, declared types, defaults, descriptions and options,
in the same insertion order. -/
theorem c7_snapshot_roundtrip (s : ETState) (t : TemplateDoc)
    (hwf : wfTemplateDoc t = true) :
    (s.reset t).init_dict =
      some { m_template := t, m_template_str := pyJsonDumps t } := by
  unfold ETState.reset ETState.init_dict
  rw [pyJsonLoads_dumps t hwf]
  rfl

theorem c7_snapshot_roundtrip_witness :
    wfTemplateDoc tSample = true ∧
      (ETState.reset ⟨[], ""⟩ tSample).init_dict =
        some { m_template := tSample, m_template_str := pyJsonDumps tSample } :=
  ⟨by decide, c7_snapshot_roundtrip ⟨[], ""⟩ tSample (by decide)⟩
